import Mathlib

/-!
# Verification of the geoh5py concatenated-storage subsystem

Shallow embedding of the repository's data model and operations, and proofs
of the specification claims about them.

Coordinates (depths, interval bounds) and data values are modelled as exact
rationals `ℚ`; the missing-value sentinel (NaN in the source) is modelled as
`none` in `Option ℚ`.
-/

set_option maxHeartbeats 1000000
set_option maxRecDepth 100000

/-! ## geoh5io PropertyGroup (src/geoh5io/groups/property_group.py) -/

/-- `DataAssociationEnum` from geoh5io.data: the possible associations of a
property group. -/
inductive DataAssociationEnum
  | UNKNOWN
  | OBJECT
  | CELL
  | VERTEX
  | FACE
  | GROUP
deriving DecidableEq, Repr

/-- The mutable state of a geoh5io `PropertyGroup` relevant to the association
attribute.  `_association` is an `Option` because the Python field can in
principle hold `None` (the setter guards on `is None`). -/
structure PropertyGroup09 where
  association : Option DataAssociationEnum
deriving DecidableEq, Repr

/-- `PropertyGroup.__init__` defaults (property_group.py line 23):
`self._association = DataAssociationEnum.VERTEX`. -/
def PropertyGroup09.default : PropertyGroup09 :=
  { association := some DataAssociationEnum.VERTEX }

/-- The `association` setter (property_group.py lines 77-87): assigns the
validated value only when the current `_association` is `None`; otherwise the
call falls through and the state is unchanged. -/
def PropertyGroup09.setAssociation (g : PropertyGroup09)
    (value : DataAssociationEnum) : PropertyGroup09 :=
  if g.association = none then { g with association := some value } else g

/-- `PropertyGroup.__init__` with keyword arguments: the defaults are set
first, then each recognised keyword is routed through the corresponding
setter (property_group.py lines 28-34).  Only association assignments can
touch `_association`. -/
def PropertyGroup09.mk09 (kwargs : List DataAssociationEnum) : PropertyGroup09 :=
  kwargs.foldl PropertyGroup09.setAssociation PropertyGroup09.default

/-! ## Curve.cells setter (src/geoh5py/objects/curve.py) -/

/-- Numpy dtypes occurring around the `cells` setter. -/
inductive NpDType
  | int64
  | int32
  | uint32
  | float64
deriving DecidableEq, Repr

/-- Whether `np.issubdtype(dtype, np.integer)` holds. -/
def NpDType.isInteger : NpDType → Bool
  | .int64 => true
  | .int32 => true
  | .uint32 => true
  | .float64 => false

/-- A 2-d numpy array of numbers, row-major.  Entries are `Int` (the setter
only ever stores integer-valued arrays; a float array is rejected before its
values matter, so carrying `Int` entries loses nothing for these claims). -/
structure NdArray where
  dtype : NpDType
  rows : Nat
  cols : Nat
  entries : List Int
deriving DecidableEq, Repr

/-- Two's-complement wrap into the int32 range, as `ndarray.astype(np.int32)`
performs on each entry. -/
def toInt32 (x : Int) : Int :=
  (x + 2 ^ 31) % 2 ^ 32 - 2 ^ 31

/-- `indices.astype(np.int32)` (curve.py line 99). -/
def NdArray.astypeInt32 (a : NdArray) : NdArray :=
  { a with dtype := .int32, entries := a.entries.map toInt32 }

/-- The errors the `cells` setter can raise. -/
inductive CurveErr
  | valueErrorFewer
  | valueErrorShape
  | valueErrorDtype
  | attributeErrorNone
deriving DecidableEq, Repr

/-- The mutable state of a `Curve` relevant to the `cells` setter. -/
structure CurveState where
  cells : Option NdArray
  parts : Option (List Int)
deriving DecidableEq, Repr

/-- The `cells` setter (curve.py lines 80-101), as a state transformer that
returns the post-call state together with the raised error, if any; a raised
error leaves the state untouched because the Python raises before any
assignment.

Faithful to the source order of checks:
1. `self._cells is not None and (indices is None or indices.shape[0] <
   self._cells.shape[0])` raises `ValueError` (remove_cells message);
2. `indices.shape[1] != 2` raises `ValueError` (on `indices = None` with no
   current cells the Python instead crashes with `AttributeError`, modelled
   as `attributeErrorNone`);
3. non-integer dtype raises `ValueError`;
4. otherwise `self._cells = indices.astype(np.int32)` and `self._parts = None`. -/
def setCells (st : CurveState) (indices : Option NdArray) :
    CurveState × Option CurveErr :=
  match st.cells, indices with
  | some _, none => (st, some .valueErrorFewer)
  | some cur, some ind =>
    if ind.rows < cur.rows then (st, some .valueErrorFewer)
    else if ind.cols ≠ 2 then (st, some .valueErrorShape)
    else if ¬ ind.dtype.isInteger then (st, some .valueErrorDtype)
    else ({ cells := some ind.astypeInt32, parts := none }, none)
  | none, none => (st, some .attributeErrorNone)
  | none, some ind =>
    if ind.cols ≠ 2 then (st, some .valueErrorShape)
    else if ¬ ind.dtype.isInteger then (st, some .valueErrorDtype)
    else ({ cells := some ind.astypeInt32, parts := none }, none)

/-- A concrete 2-row int32 cells array, for witnesses. -/
def cellsTwoRows : NdArray :=
  { dtype := .int32, rows := 2, cols := 2, entries := [0, 1, 1, 2] }

/-- A concrete curve state whose cells are already set, for witnesses. -/
def curveWithCells : CurveState :=
  { cells := some cellsTwoRows, parts := some [0, 0, 0] }

/-- A 1-row candidate cells array, for witnesses. -/
def cellsOneRow : NdArray :=
  { dtype := .int64, rows := 1, cols := 2, entries := [0, 1] }

/-- A 2-row int64 candidate with an entry that wraps when cast to int32. -/
def cellsBigEntry : NdArray :=
  { dtype := .int64, rows := 2, cols := 2, entries := [0, 1, 1, 2 ^ 31] }

/-! ## Concatenated-storage model

The concatenation subsystem itself (geoh5py.shared.concatenation and the
drillhole merge code) is not among the source files; only its tests
(src/tests/drillhole_v4_0_test.py) are.  The definitions below are therefore
modelled from the specification, with the behaviour at the points exercised
by the tests following the tests. -/

/-- The error kinds of the concatenated-storage subsystem (spec section 7). -/
inductive Err
  | unknownObject
  | duplicateColumn
  | duplicateRange
  | missingSupport
  | missingAttribute
  | invalidTolerance
  | nonTerminalExtend
  | shapeMismatch
deriving DecidableEq, Repr

/-- Which support array a column's row positions are aligned to. -/
inductive SupportKind
  | depth
  | interval
  | free
deriving DecidableEq, Repr

/-- The support coordinates supplied with an add-data call. -/
inductive SupportCoords
  | depth (d : List ℚ)
  | interval (ft : List (ℚ × ℚ))
deriving DecidableEq, Repr

/-- Association-list lookup with propositional key comparison. -/
def alookup {α β : Type} [DecidableEq α] : List (α × β) → α → Option β
  | [], _ => none
  | p :: rest, k => if p.1 = k then some p.2 else alookup rest k

/-- Association-list update: replaces the first binding of the key, or
appends a new binding at the end. -/
def aupdate {α β : Type} [DecidableEq α] : List (α × β) → α → β → List (α × β)
  | [], k, v => [(k, v)]
  | p :: rest, k, v => if p.1 = k then (k, v) :: rest else p :: aupdate rest k v

/-! ### DepthMerger (spec section 4.4)

Modelled from the spec: the two-pointer greedy scan reconciling new sorted
depth samples `N` against an existing sorted support `E` within tolerance
`t`; the implementing code is not in src.  Matched index pairs are relative
to the heads of the current lists, so the pair `(i, j)` of the full scan
means row `E[i]` was matched by sample `N[j]`. -/

/-- Modelled from the spec: the greedy left-to-right two-pointer scan.  A
sample matches a row when their distance is at most `t`; each row and each
sample is consumed at most once; on a non-match the pointer holding the
smaller coordinate advances.  The `fuel` argument only drives structural
recursion; any value at least the sum of the list lengths gives the full
scan. -/
def depthMatchGo (t : ℚ) : Nat → List ℚ → List ℚ → List (Nat × Nat)
  | 0, _, _ => []
  | _ + 1, [], _ => []
  | _ + 1, _ :: _, [] => []
  | fuel + 1, e :: es, x :: xs =>
    if |x - e| ≤ t then
      (0, 0) :: (depthMatchGo t fuel es xs).map (fun p => (p.1 + 1, p.2 + 1))
    else if x < e then
      (depthMatchGo t fuel (e :: es) xs).map (fun p => (p.1, p.2 + 1))
    else
      (depthMatchGo t fuel es (x :: xs)).map (fun p => (p.1 + 1, p.2))

/-- The matched pairs of the depth merge of `N` into `E` with tolerance `t`. -/
def depthMatches (E N : List ℚ) (t : ℚ) : List (Nat × Nat) :=
  depthMatchGo t (E.length + N.length) E N

/-- The existing row that sample `j` was matched to, if any. -/
def matchedRow (ms : List (Nat × Nat)) (j : Nat) : Option Nat :=
  (ms.find? fun p => p.2 == j).map Prod.fst

/-- The indices of the unmatched samples, in arrival order. -/
def unmatchedIdx (ms : List (Nat × Nat)) (n : Nat) : List Nat :=
  (List.range n).filter fun j => (matchedRow ms j).isNone

/-- Modelled from the spec: the combined support after a depth merge — the
existing rows followed by the unmatched new samples appended at the end in
arrival order (the store does not re-sort). -/
def depthCombined (E N : List ℚ) (t : ℚ) : List ℚ :=
  E ++ (unmatchedIdx (depthMatches E N t) N.length).map fun j => N.getD j 0

/-- Modelled from the spec: the placement vector of a depth merge — for each
input sample, the row index its value is written to: the matched existing
row for matched samples, and successive appended rows past the end of `E`
for unmatched samples. -/
def depthPlacement (E N : List ℚ) (t : ℚ) : List Nat :=
  (List.range N.length).map fun j =>
    match matchedRow (depthMatches E N t) j with
    | some i => i
    | none => E.length + (unmatchedIdx (depthMatches E N t) N.length).indexOf j

/-- Writes each value to its placement row of a column of `total` rows; rows
placed by no sample read the missing-value sentinel. -/
def colFromPlacement (pl : List Nat) (vals : List (Option ℚ)) (total : Nat) :
    List (Option ℚ) :=
  (List.range total).map fun r =>
    match (pl.zip vals).find? (fun p => p.1 == r) with
    | some p => p.2
    | none => none

/-- The value column produced for the newly added samples by a depth merge. -/
def newDepthColumn (E N : List ℚ) (t : ℚ) (vals : List (Option ℚ)) :
    List (Option ℚ) :=
  colFromPlacement (depthPlacement E N t) vals (depthCombined E N t).length

/-- Modelled from the spec: a column previously aligned to `E` is extended
with the missing-value sentinel at the `k` appended rows. -/
def extendOldColumn (old : List (Option ℚ)) (k : Nat) : List (Option ℚ) :=
  old ++ List.replicate k none

/-! ### IntervalMerger (spec section 4.5) -/

/-- Modelled from the spec: interval reconciliation.  Each new `(from, to)`
pair is looked up in the current support by exact equality of both bounds;
an identical existing row is reused (its index is the pair's placement), a
non-identical pair is appended as a new row.  Returns the final support and
the placement vector. -/
def intervalMergeGo : List (ℚ × ℚ) → List (ℚ × ℚ) → List (ℚ × ℚ) × List Nat
  | sup, [] => (sup, [])
  | sup, p :: ps =>
    match sup.findIdx? (fun q => q == p) with
    | some i =>
      let r := intervalMergeGo sup ps
      (r.1, i :: r.2)
    | none =>
      let r := intervalMergeGo (sup ++ [p]) ps
      (r.1, sup.length :: r.2)

/-! ### ConcatenatedObject, ConcatenatedData, ConcatenatedPropertyGroup
(spec section 4.3) -/

/-- A single named column bound to one concatenated object. -/
structure Column where
  kind : SupportKind
  values : List (Option ℚ)
deriving DecidableEq, Repr

/-- A property group: named, bound to one support slice, with an ordered
member list of column names. -/
structure PropGroup where
  pname : String
  support : SupportCoords
  members : List String
deriving DecidableEq, Repr

/-- The state of one concatenated object: its supports, its columns and its
property groups. -/
structure DObject where
  depthSupport : Option (List ℚ)
  intervalSupport : Option (List (ℚ × ℚ))
  columns : List (String × Column)
  groups : List PropGroup
deriving DecidableEq, Repr

/-- Inner loop of `find_or_create_property_group` followed by member
insertion: the first group with an identical support slice receives the new
member; when none exists a new group (with the supplied fresh name) is
created holding just the new member. -/
def addToGroupsGo (c : SupportCoords) (name fresh : String) :
    List PropGroup → List PropGroup
  | [] => [{ pname := fresh, support := c, members := [name] }]
  | g :: rest =>
    if g.support = c then { g with members := g.members ++ [name] } :: rest
    else g :: addToGroupsGo c name fresh rest

/-- Modelled from the spec: `find_or_create_property_group` keyed on the
support slice, then appending the new column to the group's member list.
Fresh group names are generated from the current group count. -/
def addToGroups (gs : List PropGroup) (c : SupportCoords) (name : String) :
    List PropGroup :=
  addToGroupsGo c name ("Property Group " ++ toString gs.length) gs

/-- The member insertion applied to the (unique) group with the requested
support slice, as a per-group function; used to characterise `addToGroups`
on well-formed group lists. -/
def updF (c : SupportCoords) (n : String) (g : PropGroup) : PropGroup :=
  if g.support = c then { g with members := g.members ++ [n] } else g

/-- The lookup half of `find_or_create_property_group`: the first group
whose support slice is identical to the requested one. -/
def findGroup (gs : List PropGroup) (c : SupportCoords) : Option PropGroup :=
  gs.find? fun g => g.support == c

/-- How many property groups list a column name among their members. -/
def groupsContaining (gs : List PropGroup) (n : String) : Nat :=
  gs.countP fun g => n ∈ g.members

/-- Pads a value array with the missing-value sentinel up to the support
length (the behaviour the tests exercise when fewer values than depths are
supplied). -/
def padValues (vals : List (Option ℚ)) (L : Nat) : List (Option ℚ) :=
  vals ++ List.replicate (L - vals.length) none

/-- An add-data request: a column name, optional depth coordinates, optional
from-to coordinates and the value array. -/
structure DataRequest where
  name : String
  depth : Option (List ℚ)
  fromTo : Option (List (ℚ × ℚ))
  values : List (Option ℚ)
deriving DecidableEq, Repr

/-- The depth branch of `add_data`, after validation: creates the support
when absent; otherwise runs the depth merge, extends every column previously
aligned to the support with the sentinel at appended rows, and writes the
new column through the placement vector. -/
def addDepthCore (o : DObject) (name : String) (d : List ℚ)
    (vals : List (Option ℚ)) (tol : ℚ) : Except Err DObject :=
  match o.depthSupport with
  | none =>
    if d.length < vals.length then Except.error Err.shapeMismatch
    else
      Except.ok { o with
        depthSupport := some d
        columns := o.columns ++ [(name, ⟨SupportKind.depth, padValues vals d.length⟩)]
        groups := addToGroups o.groups (SupportCoords.depth d) name }
  | some E =>
    if d.length < vals.length then Except.error Err.shapeMismatch
    else
      let comb := depthCombined E d tol
      let k := comb.length - E.length
      let olds := o.columns.map fun pr =>
        if pr.2.kind = SupportKind.depth then
          (pr.1, ⟨SupportKind.depth, extendOldColumn pr.2.values k⟩)
        else pr
      Except.ok { o with
        depthSupport := some comb
        columns := olds ++
          [(name, ⟨SupportKind.depth, newDepthColumn E d tol (padValues vals d.length)⟩)]
        groups := addToGroups o.groups (SupportCoords.depth d) name }

/-- The interval branch of `add_data`, after validation: creates the support
when absent; otherwise reconciles by exact bound equality, extends columns
previously aligned to the support with the sentinel at appended rows, and
writes the new column through the placement vector. -/
def addIntervalCore (o : DObject) (name : String) (ft : List (ℚ × ℚ))
    (vals : List (Option ℚ)) : Except Err DObject :=
  match o.intervalSupport with
  | none =>
    if ft.length < vals.length then Except.error Err.shapeMismatch
    else
      Except.ok { o with
        intervalSupport := some ft
        columns := o.columns ++ [(name, ⟨SupportKind.interval, padValues vals ft.length⟩)]
        groups := addToGroups o.groups (SupportCoords.interval ft) name }
  | some E =>
    if ft.length < vals.length then Except.error Err.shapeMismatch
    else
      let r := intervalMergeGo E ft
      let k := r.1.length - E.length
      let olds := o.columns.map fun pr =>
        if pr.2.kind = SupportKind.interval then
          (pr.1, ⟨SupportKind.interval, extendOldColumn pr.2.values k⟩)
        else pr
      Except.ok { o with
        intervalSupport := some r.1
        columns := olds ++
          [(name, ⟨SupportKind.interval, colFromPlacement r.2 (padValues vals ft.length) r.1.length⟩)]
        groups := addToGroups o.groups (SupportCoords.interval ft) name }

/-- Modelled from the spec: `add_data` (spec section 4.3); the implementing
code is not in src.  Validation order follows the tests: for depth data a
non-positive tolerance (collocation distance) is rejected first, then a
duplicate column name; a request carrying neither depth nor from-to
coordinates fails for want of a support. -/
def add_data (o : DObject) (r : DataRequest) (tol : ℚ) : Except Err DObject :=
  match r.depth with
  | some d =>
    if tol ≤ 0 then Except.error Err.invalidTolerance
    else if (alookup o.columns r.name).isSome then Except.error Err.duplicateColumn
    else addDepthCore o r.name d r.values tol
  | none =>
    match r.fromTo with
    | some ft =>
      if (alookup o.columns r.name).isSome then Except.error Err.duplicateColumn
      else addIntervalCore o r.name ft r.values
    | none => Except.error Err.missingSupport

/-- Modelled from the spec and the tests: adding values against an existing
property group's support (the `property_group=` keyword of `add_data`): the
value length must equal the group's support length exactly, and the new
column joins the group. -/
def add_data_to_group (o : DObject) (name : String) (vals : List (Option ℚ))
    (gname : String) : Except Err DObject :=
  if (alookup o.columns name).isSome then Except.error Err.duplicateColumn
  else
    match o.groups.find? (fun g => g.pname == gname) with
    | none => Except.error Err.missingAttribute
    | some g =>
      let L := match g.support with
        | SupportCoords.depth d => d.length
        | SupportCoords.interval ft => ft.length
      let kd := match g.support with
        | SupportCoords.depth _ => SupportKind.depth
        | SupportCoords.interval _ => SupportKind.interval
      if vals.length ≠ L then Except.error Err.shapeMismatch
      else
        Except.ok { o with
          columns := o.columns ++ [(name, ⟨kd, vals⟩)]
          groups := o.groups.map fun h =>
            if h.pname = gname then { h with members := h.members ++ [name] } else h }

/-- Modelled from the spec: `remove_data` (spec section 4.3): drops the
column (clearing its value slice); the support rows are removed only when no
remaining column references that support; sibling columns are untouched.
The column's name is also retired from every property group member list. -/
def remove_data (o : DObject) (name : String) : DObject :=
  match alookup o.columns name with
  | none => o
  | some col =>
    let cols := o.columns.filter fun pr => pr.1 ≠ name
    let stillDepth := cols.any fun pr => pr.2.kind == SupportKind.depth
    let stillInterval := cols.any fun pr => pr.2.kind == SupportKind.interval
    { o with
      columns := cols
      depthSupport :=
        if col.kind = SupportKind.depth ∧ stillDepth = false then none
        else o.depthSupport
      intervalSupport :=
        if col.kind = SupportKind.interval ∧ stillInterval = false then none
        else o.intervalSupport
      groups := o.groups.map fun g =>
        { g with members := g.members.filter fun m => m ≠ name } }

/-! ### ConcatenatedStore (spec section 4.2) -/

/-- A value of an attribute blob: a scalar, or a cross-reference to another
object identifier (parent/child or referenced-data links). -/
inductive BlobVal
  | str (s : String)
  | num (q : ℚ)
  | ref (oid : Nat)
deriving DecidableEq, Repr

/-- Everything the store keeps per registered object: the attribute blob and
the object's property groups. -/
structure ObjRecord where
  blob : List (String × BlobVal)
  groups : List PropGroup
deriving DecidableEq, Repr

/-- The concatenated store: the registry of member object identifiers, the
per-object attribute blobs, one shared array per attribute name and the
per-attribute index tables of `(object_id, offset, count)` triples.
`nextId` feeds fresh identifier allocation. -/
structure Store where
  nextId : Nat
  object_ids : List Nat
  attributes : List (Nat × ObjRecord)
  arrays : List (String × List (Option ℚ))
  index : List (String × List (Nat × Nat × Nat))
deriving DecidableEq, Repr

/-- `IndexTable.lookup` (spec section 4.1): the `(offset, count)` range of an
object inside the shared array. -/
def tableLookup : List (Nat × Nat × Nat) → Nat → Option (Nat × Nat)
  | [], _ => none
  | tr :: rest, oid => if tr.1 = oid then some tr.2 else tableLookup rest oid

/-- The shared array of an attribute, empty when absent. -/
def arrOf (s : Store) (attr : String) : List (Option ℚ) :=
  (alookup s.arrays attr).getD []

/-- The index table of an attribute, empty when absent. -/
def idxOf (s : Store) (attr : String) : List (Nat × Nat × Nat) :=
  (alookup s.index attr).getD []

/-- The total row count recorded in an index table. -/
def countSum (tbl : List (Nat × Nat × Nat)) : Nat :=
  (tbl.map fun tr => tr.2.2).sum

/-- The core store invariant (spec section 3): for every attribute, the
counts recorded in its index sum to the shared array's length. -/
def storeInv (s : Store) : Prop :=
  ∀ attr : String, countSum (idxOf s attr) = (arrOf s attr).length

/-- Modelled from the spec: `write_array` (spec section 4.2), the central
append entry point.  All validation happens against an in-memory staging of
the updated shared array and index; only after validation are both committed
together.  On any error the returned store is the untouched input.
`expected` carries the placement-vector/support length the values are
written against, when one applies. -/
def write_array (s : Store) (attr : String) (oid : Nat)
    (vals : List (Option ℚ)) (expected : Option Nat) : Store × Option Err :=
  if oid ∈ s.object_ids then
    match expected with
    | some L =>
      if vals.length ≠ L then (s, some Err.shapeMismatch)
      else match tableLookup (idxOf s attr) oid with
        | some _ => (s, some Err.duplicateRange)
        | none =>
          ({ s with
              arrays := aupdate s.arrays attr (arrOf s attr ++ vals)
              index := aupdate s.index attr
                (idxOf s attr ++ [(oid, (arrOf s attr).length, vals.length)]) },
            none)
    | none =>
      match tableLookup (idxOf s attr) oid with
      | some _ => (s, some Err.duplicateRange)
      | none =>
        ({ s with
            arrays := aupdate s.arrays attr (arrOf s attr ++ vals)
            index := aupdate s.index attr
              (idxOf s attr ++ [(oid, (arrOf s attr).length, vals.length)]) },
          none)
  else (s, some Err.unknownObject)

/-- `read_array` (spec section 4.2): the object's `(offset, count)` view of
the shared array, `none` when the object has no range for that attribute. -/
def read_array (s : Store) (attr : String) (oid : Nat) :
    Option (List (Option ℚ)) :=
  match alookup s.index attr with
  | none => none
  | some tbl =>
    match tableLookup tbl oid with
    | none => none
    | some rng => some (((arrOf s attr).drop rng.1).take rng.2)

/-- Rewrites every cross-reference of a blob through the id remap (spec
section 4.2: links pointing at an original id are rewritten). -/
def rewriteBlob (remap : List (Nat × Nat)) (b : List (String × BlobVal)) :
    List (String × BlobVal) :=
  b.map fun p =>
    match p.2 with
    | BlobVal.ref oid => (p.1, BlobVal.ref ((alookup remap oid).getD oid))
    | v => (p.1, v)

/-- Copies one attribute's slice of the source object into the destination
store under the new identifier, appending to the shared array and the index
together; an attribute the object has no range for is skipped. -/
def copyAttr (src : Store) (oid newId : Nat) (dst : Store) (attr : String) :
    Store :=
  match read_array src attr oid with
  | none => dst
  | some slice =>
    { dst with
      arrays := aupdate dst.arrays attr (arrOf dst attr ++ slice)
      index := aupdate dst.index attr
        (idxOf dst attr ++ [(newId, (arrOf dst attr).length, slice.length)]) }

/-- Modelled from the spec: `ConcatenatedStore.copy` (spec section 4.2)
combined with the property-group recreation of `ConcatenatedObject.copy`
(spec section 4.3): allocates a fresh identifier in the destination, records
it in the id remap, duplicates the attribute blob (cross-references
rewritten through the updated remap) and the property groups, then copies
every array slice the object owns.  `attrs` enumerates the attribute names
to copy. -/
def copyObject (src dst : Store) (oid : Nat) (attrs : List String)
    (remap : List (Nat × Nat)) :
    (Store × Nat × List (Nat × Nat)) × Option Err :=
  match alookup src.attributes oid with
  | none => ((dst, 0, remap), some Err.unknownObject)
  | some record =>
    let newId := dst.nextId
    let remap2 := aupdate remap oid newId
    let dst1 : Store :=
      { dst with
        nextId := dst.nextId + 1
        object_ids := dst.object_ids ++ [newId]
        attributes := dst.attributes ++
          [(newId, { blob := rewriteBlob remap2 record.blob, groups := record.groups })] }
    ((attrs.foldl (copyAttr src oid newId) dst1, newId, remap2), none)

/-- Identifier freshness discipline of a store: every registered identifier,
every attribute-blob key and every identifier appearing in an index table is
below `nextId`. -/
def Store.freshIds (s : Store) : Prop :=
  (∀ oid ∈ s.object_ids, oid < s.nextId) ∧
  (∀ p ∈ s.attributes, p.1 < s.nextId) ∧
  (∀ attr : String, ∀ tr ∈ idxOf s attr, tr.1 < s.nextId)

/-! ### Concrete fixtures for witnesses -/

/-- A small store with one registered object owning a two-row depth array,
for witnesses. -/
def storeW : Store :=
  { nextId := 2
    object_ids := [1]
    attributes := [(1, { blob := [("Name", BlobVal.str "bullseye"),
                                  ("Parent", BlobVal.ref 1)]
                         groups := [] })]
    arrays := [("Depth", [some 0, some 1])]
    index := [("Depth", [(1, 0, 2)])] }

/-- A destination store with nothing in it, for copy witnesses. -/
def emptyStore : Store :=
  { nextId := 0, object_ids := [], attributes := [], arrays := [], index := [] }

/-- A drillhole-like object with nothing on it yet. -/
def emptyDObject : DObject :=
  { depthSupport := none, intervalSupport := none, columns := [], groups := [] }

/-- The depths `0, 1, ..., 49` of the first log of the drillhole test. -/
def depths50 : List ℚ :=
  (List.range 50).map fun k => (k : ℚ)

/-- The depths `0.01, 1.01, ..., 49.01` of the second log of the drillhole
test. -/
def depthsShift50 : List ℚ :=
  (List.range 50).map fun k => (k : ℚ) + 1 / 100

/-- Fifty values for the first log. -/
def vals50a : List (Option ℚ) :=
  List.replicate 50 (some 1)

/-- Fifty values for the second log. -/
def vals50b : List (Option ℚ) :=
  List.replicate 50 (some 2)

/-- Thirty values, as in the short-values add of the drillhole test. -/
def vals30 : List (Option ℚ) :=
  List.replicate 30 (some 3)

/-- Forty-nine values, as in the mismatched property-group add of the
drillhole test. -/
def vals49 : List (Option ℚ) :=
  List.replicate 49 (some 7)

/-- The depth property group of `wellAfterFirstLog`, for witnesses. -/
def pg0 : PropGroup :=
  { pname := "Property Group 0"
    support := SupportCoords.depth depths50
    members := ["first_log"] }

/-- A throwaway property group used to instantiate unused arguments. -/
def dummyGroup : PropGroup :=
  { pname := "x", support := SupportCoords.depth [], members := [] }

/-- A well with two depth columns aligned to one support, the sibling column
holding one sentinel (NaN) entry, as in the removal test. -/
def oC4 : DObject :=
  { depthSupport := some [0, 1, 2]
    intervalSupport := none
    columns :=
      [("my_log_values", ⟨SupportKind.depth, [some 1, some 2, some 3]⟩),
       ("log_wt_tolerance", ⟨SupportKind.depth, [none, some 5, some 6]⟩)]
    groups := [{ pname := "Property Group 0"
                 support := SupportCoords.depth [0, 1, 2]
                 members := ["my_log_values", "log_wt_tolerance"] }] }

/-- The object after the first log (`my_log_values/`) is stored 1:1. -/
def wellAfterFirstLog : DObject :=
  { depthSupport := some depths50
    intervalSupport := none
    columns := [("first_log", ⟨SupportKind.depth, vals50a⟩)]
    groups := [{ pname := "Property Group 0"
                 support := SupportCoords.depth depths50
                 members := ["first_log"] }] }

/- Rational arithmetic must evaluate inside `decide` witnesses; the core
arithmetic on `Rat` ships irreducible, so it is unsealed for this file. -/
attribute [local semireducible] Rat.add Rat.sub Rat.mul Rat.inv

/-! ## Theorems for claims C9 and C10 -/

/-- C9: for every geoh5io `PropertyGroup`, the association attribute always
equals `DataAssociationEnum.VERTEX`: the constructor initialises it to
VERTEX, and because the setter only assigns when the current value is `None`,
every subsequent assignment `group.association = v` (including assignments
made through constructor kwargs) is silently ignored, for all values `v`. -/
theorem C9_association_always_vertex :
    (∀ kwargs : List DataAssociationEnum,
      (PropertyGroup09.mk09 kwargs).association = some DataAssociationEnum.VERTEX) ∧
    (∀ g : PropertyGroup09, ∀ v : DataAssociationEnum,
      g.association = some DataAssociationEnum.VERTEX →
      (g.setAssociation v).association = some DataAssociationEnum.VERTEX) := by
  constructor
  · intro kwargs
    suffices h : ∀ g : PropertyGroup09,
        g.association = some DataAssociationEnum.VERTEX →
        (kwargs.foldl PropertyGroup09.setAssociation g).association
          = some DataAssociationEnum.VERTEX by
      exact h PropertyGroup09.default rfl
    induction kwargs with
    | nil => intro g hg; simpa using hg
    | cons v vs ih =>
      intro g hg
      have hset : (g.setAssociation v).association
          = some DataAssociationEnum.VERTEX := by
        simp [PropertyGroup09.setAssociation, hg]
      simpa using ih (g.setAssociation v) hset
  · intro g v hg
    simp [PropertyGroup09.setAssociation, hg]

/-- C9 witness: a concrete construction passing an association kwarg, and a
direct post-construction assignment, both leave the association at VERTEX. -/
theorem C9_association_always_vertex_witness :
    (PropertyGroup09.mk09 [DataAssociationEnum.CELL]).association
        = some DataAssociationEnum.VERTEX ∧
    ((PropertyGroup09.mk09 []).setAssociation DataAssociationEnum.FACE).association
        = some DataAssociationEnum.VERTEX :=
  ⟨C9_association_always_vertex.1 [DataAssociationEnum.CELL],
   C9_association_always_vertex.2 (PropertyGroup09.mk09 [])
     DataAssociationEnum.FACE (C9_association_always_vertex.1 [])⟩

/-- C10: for every `Curve` whose cells array is already set, assigning cells
with `None` or with an array having fewer rows than the current cells raises
`ValueError` and leaves the existing cells unchanged; an accepted assignment
requires integer dtype and shape `(*, 2)`, is stored as int32, and resets the
cached parts to `None`. -/
theorem C10_cells_setter (st : CurveState) (cur : NdArray)
    (hcur : st.cells = some cur) :
    (setCells st none = (st, some CurveErr.valueErrorFewer)) ∧
    (∀ ind : NdArray, ind.rows < cur.rows →
      setCells st (some ind) = (st, some CurveErr.valueErrorFewer)) ∧
    (∀ ind : NdArray, (setCells st (some ind)).2 = none →
      ind.dtype.isInteger = true ∧ ind.cols = 2 ∧ cur.rows ≤ ind.rows) ∧
    (∀ ind : NdArray, cur.rows ≤ ind.rows → ind.cols = 2 →
      ind.dtype.isInteger = true →
      setCells st (some ind) =
        ({ cells := some ind.astypeInt32, parts := none }, none)) := by
  refine ⟨?_, ?_, ?_, ?_⟩
  · simp [setCells, hcur]
  · intro ind hrows
    simp [setCells, hcur, hrows]
  · intro ind hok
    by_cases hrows : ind.rows < cur.rows
    · simp [setCells, hcur, hrows] at hok
    · by_cases hcols : ind.cols = 2
      · by_cases hdt : ind.dtype.isInteger
        · exact ⟨hdt, hcols, Nat.le_of_not_lt hrows⟩
        · simp [setCells, hcur, hrows, hcols, hdt] at hok
      · simp [setCells, hcur, hrows, hcols] at hok
  · intro ind hrows hcols hdt
    simp [setCells, hcur, Nat.not_lt.mpr hrows, hcols, hdt]

/-- C10 witness: concrete curve state with a 2-row cells array; assigning
`None` and a 1-row array both fail and leave the state unchanged; a 2-row
int64 array is accepted, cast to int32 (with wraparound visible on a large
entry), and clears the cached parts. -/
theorem C10_cells_setter_witness :
    (setCells curveWithCells none
      = (curveWithCells, some CurveErr.valueErrorFewer)) ∧
    (setCells curveWithCells (some cellsOneRow)
      = (curveWithCells, some CurveErr.valueErrorFewer)) ∧
    (setCells curveWithCells (some cellsBigEntry)
      = ({ cells := some cellsBigEntry.astypeInt32, parts := none }, none) ∧
      cellsBigEntry.astypeInt32.dtype = NpDType.int32 ∧
      cellsBigEntry.astypeInt32.entries = [0, 1, 1, -(2 ^ 31)]) := by
  have h := C10_cells_setter curveWithCells cellsTwoRows rfl
  refine ⟨h.1, h.2.1 _ (by decide), h.2.2.2 cellsBigEntry (by decide) rfl rfl,
    rfl, by decide⟩

/-! ## Theorems for claim C8 (tolerance validation) -/

/-- C8: every `add_data` call on a concatenated object supplying depth data
with a non-positive tolerance (collocation distance) fails with
`InvalidToleranceError` — no data is written, since no updated object is
produced; the same call with a positive tolerance (fresh name, values no
longer than the depths) is accepted. -/
theorem C8_tolerance_validation (o : DObject) (name : String) (d : List ℚ)
    (vals : List (Option ℚ)) (tol : ℚ) :
    (tol ≤ 0 →
      add_data o ⟨name, some d, none, vals⟩ tol
        = Except.error Err.invalidTolerance) ∧
    (0 < tol → alookup o.columns name = none → vals.length ≤ d.length →
      (add_data o ⟨name, some d, none, vals⟩ tol).isOk = true) := by
  constructor
  · intro htol
    simp [add_data, htol]
  · intro htol hfresh hlen
    have htol2 : ¬ tol ≤ 0 := not_le.mpr htol
    have hlen2 : ¬ d.length < vals.length := Nat.not_lt.mpr hlen
    cases hsup : o.depthSupport with
    | none => simp [add_data, htol2, hfresh, addDepthCore, hsup, hlen2, Except.isOk, Except.toBool]
    | some E => simp [add_data, htol2, hfresh, addDepthCore, hsup, hlen2, Except.isOk, Except.toBool]

/-- C8 witness: the drillhole-test call with collocation distance `-1` is
rejected with the tolerance error, and the same call with a positive
tolerance is accepted. -/
theorem C8_tolerance_validation_witness :
    add_data emptyDObject ⟨"my_log_values", some [0, 1, 2], none,
        [some 1, some 2, some 3]⟩ (-1) = Except.error Err.invalidTolerance ∧
    (add_data emptyDObject ⟨"my_log_values", some [0, 1, 2], none,
        [some 1, some 2, some 3]⟩ (1 / 2)).isOk = true :=
  ⟨(C8_tolerance_validation emptyDObject "my_log_values" [0, 1, 2]
      [some 1, some 2, some 3] (-1)).1 (by decide),
   (C8_tolerance_validation emptyDObject "my_log_values" [0, 1, 2]
      [some 1, some 2, some 3] (1 / 2)).2 (by decide) (by decide) (by decide)⟩

/-! ## Theorems for claim C5 (interval merge exact equality) -/

/-- C5: a new `(from, to)` pair is treated as identical to an existing
support row only when both bounds are exactly equal: then the matched row is
the placement target (the existing row is updated in place), the support is
left unchanged by that pair, and no new row is created; a pair differing in
either bound is appended as a new row at the end.  Consequently a table
whose first pair exactly equals an existing pair does not duplicate that
support row. -/
theorem C5_interval_exact_equality (sup : List (ℚ × ℚ)) (ps : List (ℚ × ℚ))
    (p : ℚ × ℚ) :
    (p ∈ sup →
      ∃ i, intervalMergeGo sup (p :: ps)
            = ((intervalMergeGo sup ps).1, i :: (intervalMergeGo sup ps).2) ∧
          sup[i]? = some p) ∧
    (p ∉ sup →
      intervalMergeGo sup (p :: ps)
        = ((intervalMergeGo (sup ++ [p]) ps).1,
            sup.length :: (intervalMergeGo (sup ++ [p]) ps).2)) ∧
    (p ∈ sup → (intervalMergeGo sup [p]).1 = sup) := by
  refine ⟨?_, ?_, ?_⟩
  · intro hmem
    obtain ⟨i, hfind⟩ : ∃ i, sup.findIdx? (fun q => q == p) = some i := by
      have : (sup.findIdx? (fun q => q == p)).isSome := by
        rw [List.findIdx?_isSome]
        exact List.any_eq_true.mpr ⟨p, hmem, by simp⟩
      exact Option.isSome_iff_exists.mp this
    refine ⟨i, ?_, ?_⟩
    · simp [intervalMergeGo, hfind]
    · obtain ⟨hlt, hpred, -⟩ := List.findIdx?_eq_some_iff_getElem.mp hfind
      rw [List.getElem?_eq_getElem hlt]
      simpa using hpred
  · intro hmem
    have hfind : sup.findIdx? (fun q => q == p) = none := by
      rw [List.findIdx?_eq_none_iff]
      intro q hq
      show (q == p) = false
      rw [beq_eq_false_iff_ne]
      rintro rfl
      exact hmem hq
    simp [intervalMergeGo, hfind]
  · intro hmem
    obtain ⟨i, hfind⟩ : ∃ i, sup.findIdx? (fun q => q == p) = some i := by
      have : (sup.findIdx? (fun q => q == p)).isSome := by
        rw [List.findIdx?_isSome]
        exact List.any_eq_true.mpr ⟨p, hmem, by simp⟩
      exact Option.isSome_iff_exists.mp this
    simp [intervalMergeGo, hfind]

/-- C5 witness: the spec's interval scenario — against support `[(0, 10)]`,
adding `(0, 10)` again places onto the existing row 0 and leaves the support
as is, while adding `(0, 11)` appends a new row. -/
theorem C5_interval_exact_equality_witness :
    intervalMergeGo [((0 : ℚ), (10 : ℚ))] [(0, 10)] = ([(0, 10)], [0]) ∧
    intervalMergeGo [((0 : ℚ), (10 : ℚ))] [(0, 11)]
      = ([(0, 10), (0, 11)], [1]) ∧
    (intervalMergeGo [((0 : ℚ), (10 : ℚ))] [(0, 10)]).1 = [(0, 10)] := by
  have h1 := (C5_interval_exact_equality [((0 : ℚ), (10 : ℚ))] [] (0, 10)).1
    (by decide)
  have h2 := (C5_interval_exact_equality [((0 : ℚ), (10 : ℚ))] [] (0, 11)).2.1
    (by decide)
  have h3 := (C5_interval_exact_equality [((0 : ℚ), (10 : ℚ))] [] (0, 10)).2.2
    (by decide)
  obtain ⟨i, hstep, hrow⟩ := h1
  refine ⟨?_, ?_, h3⟩
  · have hi : i = 0 := by
      have : i < 1 := by
        by_contra hge
        have : [((0 : ℚ), (10 : ℚ))][i]? = none := by
          rw [List.getElem?_eq_none]
          · simpa using Nat.le_of_not_lt hge
        simp [this] at hrow
      omega
    subst hi
    simp only [intervalMergeGo] at hstep
    exact hstep
  · simp only [intervalMergeGo] at h2
    exact h2

/-! ## Theorems for claim C4 (remove_data frame property) -/

/-- Looking a key up in an association list succeeds exactly on an entry of
the list. -/
theorem alookup_mem {α β : Type} [DecidableEq α] (l : List (α × β)) (k : α)
    (v : β) (h : alookup l k = some v) : (k, v) ∈ l := by
  induction l with
  | nil => simp [alookup] at h
  | cons p rest ih =>
    by_cases hp : p.1 = k
    · rw [alookup, if_pos hp] at h
      obtain rfl : p.2 = v := Option.some_injective _ h
      have hkp : (k, p.2) = p := by rw [← hp]
      rw [hkp]
      exact List.mem_cons_self _ _
    · rw [alookup, if_neg hp] at h
      exact List.mem_cons_of_mem _ (ih h)

/-- Filtering out one key leaves lookups of every other key unchanged. -/
theorem alookup_filter_ne {α β : Type} [DecidableEq α] (l : List (α × β))
    (bad k : α) (h : k ≠ bad) :
    alookup (l.filter fun pr => pr.1 ≠ bad) k = alookup l k := by
  induction l with
  | nil => rfl
  | cons p rest ih =>
    by_cases hp : p.1 = bad
    · have hpk : p.1 ≠ k := by rw [hp]; exact fun he => h he.symm
      rw [List.filter_cons, if_neg (by simpa using hp), alookup, if_neg hpk]
      exact ih
    · rw [List.filter_cons, if_pos (by simpa using hp), alookup, alookup]
      split
      · rfl
      · exact ih

/-- Filtering out a key removes it from lookups. -/
theorem alookup_filter_self {α β : Type} [DecidableEq α] (l : List (α × β))
    (bad : α) : alookup (l.filter fun pr => pr.1 ≠ bad) bad = none := by
  induction l with
  | nil => rfl
  | cons p rest ih =>
    by_cases hp : p.1 = bad
    · rw [List.filter_cons, if_neg (by simpa using hp)]
      exact ih
    · rw [List.filter_cons, if_pos (by simpa using hp), alookup, if_neg hp]
      exact ih

/-- C4: for an object holding two columns aligned to the same depth support,
removing one column leaves the sibling column's values (sentinel entries
included) and the support rows unchanged, and the removed column's name is no
longer listed; in general, removing a depth column deletes the support rows
exactly when no remaining column references the depth support. -/
theorem C4_remove_data_frame (o : DObject) (name sibling : String)
    (c cs : Column) (hne : sibling ≠ name)
    (hcol : alookup o.columns name = some c)
    (hsib : alookup o.columns sibling = some cs)
    (hsibkind : cs.kind = SupportKind.depth) :
    alookup (remove_data o name).columns sibling = some cs ∧
    (remove_data o name).depthSupport = o.depthSupport ∧
    alookup (remove_data o name).columns name = none ∧
    (∀ (o2 : DObject) (n2 : String) (c2 : Column),
      alookup o2.columns n2 = some c2 → c2.kind = SupportKind.depth →
      (remove_data o2 n2).depthSupport =
        (if ((o2.columns.filter fun pr => pr.1 ≠ n2).any
              fun pr => pr.2.kind == SupportKind.depth) = true
         then o2.depthSupport else none)) := by
  have hsibf : alookup (o.columns.filter fun pr => pr.1 ≠ name) sibling
      = some cs := by
    rw [alookup_filter_ne _ _ _ hne]
    exact hsib
  have hstill : ((o.columns.filter fun pr => pr.1 ≠ name).any
      fun pr => pr.2.kind == SupportKind.depth) = true := by
    refine List.any_eq_true.mpr ⟨(sibling, cs), alookup_mem _ _ _ hsibf, ?_⟩
    simp [hsibkind]
  refine ⟨?_, ?_, ?_, ?_⟩
  · rw [remove_data, hcol]
    exact hsibf
  · rw [remove_data, hcol]
    simp only [hstill]
    simp
  · rw [remove_data, hcol]
    exact alookup_filter_self _ _
  · intro o2 n2 c2 hcol2 hkind2
    rw [remove_data, hcol2]
    by_cases h2 : ((o2.columns.filter fun pr => pr.1 ≠ n2).any
        fun pr => pr.2.kind == SupportKind.depth) = true
    · simp only [h2]
      simp
    · have h2f : ((o2.columns.filter fun pr => pr.1 ≠ n2).any
          fun pr => pr.2.kind == SupportKind.depth) = false :=
        Bool.eq_false_iff.mpr h2
      simp only [h2f]
      simp [hkind2]

/-- C4 witness: on the concrete two-column well, removing `my_log_values`
leaves the sibling `log_wt_tolerance` column byte-for-byte intact (its
single sentinel entry included), keeps the support rows, and unlists the
removed name; removing the last depth column drops the support. -/
theorem C4_remove_data_frame_witness :
    alookup (remove_data oC4 "my_log_values").columns "log_wt_tolerance"
      = some ⟨SupportKind.depth, [none, some 5, some 6]⟩ ∧
    (remove_data oC4 "my_log_values").depthSupport = oC4.depthSupport ∧
    alookup (remove_data oC4 "my_log_values").columns "my_log_values" = none ∧
    ((remove_data oC4 "my_log_values").columns.map
        fun pr => pr.2.values.countP Option.isNone) = [1] ∧
    (remove_data (remove_data oC4 "my_log_values") "log_wt_tolerance").depthSupport
      = none := by
  have h := C4_remove_data_frame oC4 "my_log_values" "log_wt_tolerance"
    ⟨SupportKind.depth, [some 1, some 2, some 3]⟩
    ⟨SupportKind.depth, [none, some 5, some 6]⟩
    (by decide) (by decide) (by decide) (by decide)
  exact ⟨h.1, h.2.1, h.2.2.1, by decide, by decide⟩

/-! ## Theorems for claim C6 (property-group membership) -/

/-- `updF` never changes a group's support slice. -/
theorem updF_support (c : SupportCoords) (n : String) (g : PropGroup) :
    (updF c n g).support = g.support := by
  rw [updF]
  split <;> rfl

/-- When no group carries the requested support, `addToGroups` appends a new
group holding just the new member. -/
theorem addToGroupsGo_create (c : SupportCoords) (n fresh : String) :
    ∀ gs : List PropGroup, (∀ g ∈ gs, g.support ≠ c) →
    addToGroupsGo c n fresh gs
      = gs ++ [{ pname := fresh, support := c, members := [n] }] := by
  intro gs
  induction gs with
  | nil => intro _; rfl
  | cons a rest ih =>
    intro h
    rw [addToGroupsGo, if_neg (h a (List.mem_cons_self a rest)), List.cons_append]
    rw [ih fun g hg => h g (List.mem_cons_of_mem a hg)]

/-- When some group carries the requested support and supports are pairwise
distinct, `addToGroups` updates exactly that group, in place. -/
theorem addToGroupsGo_update (c : SupportCoords) (n fresh : String) :
    ∀ gs : List PropGroup, gs.Pairwise (fun a b => a.support ≠ b.support) →
    (∃ g0 ∈ gs, g0.support = c) →
    addToGroupsGo c n fresh gs = gs.map (updF c n) := by
  intro gs
  induction gs with
  | nil =>
    rintro - ⟨g0, hg, -⟩
    cases hg
  | cons a rest ih =>
    intro hWF hex
    by_cases has : a.support = c
    · rw [addToGroupsGo, if_pos has, List.map_cons]
      have htail : rest.map (updF c n) = rest := by
        have hid : ∀ b ∈ rest, updF c n b = id b := by
          intro b hb
          have hbs : b.support ≠ c := by
            intro hbc
            exact (List.pairwise_cons.mp hWF).1 b hb (by rw [has, hbc])
          rw [updF, if_neg hbs]
          rfl
        rw [List.map_congr_left hid, List.map_id]
      rw [htail, updF, if_pos has]
    · rw [addToGroupsGo, if_neg has, List.map_cons, updF, if_neg has]
      obtain ⟨g0, hg0, hg0c⟩ := hex
      have hg0' : g0 ∈ rest := by
        rcases List.mem_cons.mp hg0 with rfl | h
        · exact absurd hg0c has
        · exact h
      rw [ih (List.pairwise_cons.mp hWF).2 ⟨g0, hg0', hg0c⟩]

/-- `findGroup` commutes with the member-insertion map. -/
theorem findGroup_map_updF (gs : List PropGroup) (c c2 : SupportCoords)
    (n : String) :
    findGroup (gs.map (updF c2 n)) c = (findGroup gs c).map (updF c2 n) := by
  rw [findGroup, List.find?_map]
  have : ((fun g => g.support == c) ∘ updF c2 n) = fun g => g.support == c := by
    funext g
    simp [Function.comp, updF_support]
  rw [this]
  rfl

/-- Among pairwise-distinct supports, a present support is carried by
exactly one group. -/
theorem count_support_one (c : SupportCoords) :
    ∀ gs : List PropGroup, gs.Pairwise (fun a b => a.support ≠ b.support) →
    (∃ g0 ∈ gs, g0.support = c) →
    (gs.countP fun g => g.support == c) = 1 := by
  intro gs
  induction gs with
  | nil =>
    rintro - ⟨g0, hg, -⟩
    cases hg
  | cons a rest ih =>
    intro hWF hex
    by_cases has : a.support = c
    · have hrest : (rest.countP fun g => g.support == c) = 0 := by
        rw [List.countP_eq_zero]
        intro b hb
        simp only [beq_iff_eq]
        intro hbc
        exact (List.pairwise_cons.mp hWF).1 b hb (by rw [has, hbc])
      rw [List.countP_cons, hrest, if_pos (by simpa using has)]
    · obtain ⟨g0, hg0, hg0c⟩ := hex
      have hg0' : g0 ∈ rest := by
        rcases List.mem_cons.mp hg0 with rfl | h
        · exact absurd hg0c has
        · exact h
      rw [List.countP_cons, ih (List.pairwise_cons.mp hWF).2 ⟨g0, hg0', hg0c⟩,
        if_neg (by simpa using has)]

/-- Adding a member through `find_or_create` keeps the supports pairwise
distinct. -/
theorem addToGroups_WF (gs : List PropGroup) (c : SupportCoords) (n : String)
    (hWF : gs.Pairwise fun a b => a.support ≠ b.support) :
    (addToGroups gs c n).Pairwise fun a b => a.support ≠ b.support := by
  by_cases hex : ∃ g0 ∈ gs, g0.support = c
  · rw [addToGroups, addToGroupsGo_update c n _ gs hWF hex]
    refine List.Pairwise.map _ ?_ hWF
    intro a b hab
    rw [updF_support, updF_support]
    exact hab
  · push_neg at hex
    rw [addToGroups, addToGroupsGo_create c n _ gs hex]
    rw [List.pairwise_append]
    refine ⟨hWF, List.pairwise_singleton _ _, ?_⟩
    intro a ha b hb
    rcases List.mem_singleton.mp hb with rfl
    intro hcontr
    exact hex a ha hcontr

/-- After the add, the requested support is carried by a group whose member
list is the old group's member list (empty when the group is created) with
the new name appended at the end. -/
theorem addToGroups_found (gs : List PropGroup) (c : SupportCoords) (n : String)
    (hWF : gs.Pairwise fun a b => a.support ≠ b.support) :
    ∃ g2, findGroup (addToGroups gs c n) c = some g2 ∧ g2.support = c ∧
      g2.members = ((findGroup gs c).map PropGroup.members).getD [] ++ [n] := by
  by_cases hex : ∃ g0 ∈ gs, g0.support = c
  · rw [addToGroups, addToGroupsGo_update c n _ gs hWF hex, findGroup_map_updF]
    obtain ⟨g0, hg0, hg0c⟩ := hex
    obtain ⟨gf, hgf⟩ : ∃ gf, findGroup gs c = some gf := by
      have : (findGroup gs c).isSome := by
        rw [findGroup, List.find?_isSome]
        refine ⟨g0, hg0, ?_⟩
        simpa using hg0c
      exact Option.isSome_iff_exists.mp this
    have hgfc : gf.support = c := by
      rw [findGroup] at hgf
      simpa using List.find?_some hgf
    refine ⟨updF c n gf, by rw [hgf]; rfl, by rw [updF_support]; exact hgfc, ?_⟩
    rw [hgf]
    simp [updF, hgfc]
  · push_neg at hex
    have hnone : List.find? (fun g => g.support == c) gs = none := by
      rw [List.find?_eq_none]
      intro g hg
      simpa using hex g hg
    have hnoneG : findGroup gs c = none := by
      rw [findGroup]
      exact hnone
    rw [addToGroups, addToGroupsGo_create c n _ gs hex, findGroup,
      List.find?_append, hnone, Option.none_or,
      List.find?_cons_of_pos _ (by simp)]
    exact ⟨_, rfl, rfl, by rw [hnoneG]; rfl⟩

/-- The add leaves every other support's group untouched. -/
theorem addToGroups_other_support (gs : List PropGroup) (c c2 : SupportCoords)
    (n : String) (hWF : gs.Pairwise fun a b => a.support ≠ b.support)
    (hne : c2 ≠ c) :
    findGroup (addToGroups gs c n) c2 = findGroup gs c2 := by
  by_cases hex : ∃ g0 ∈ gs, g0.support = c
  · rw [addToGroups, addToGroupsGo_update c n _ gs hWF hex, findGroup_map_updF]
    cases hgf : findGroup gs c2 with
    | none => rfl
    | some gf =>
      have hgfc : gf.support = c2 := by
        rw [findGroup] at hgf
        simpa using List.find?_some hgf
      show some (updF c n gf) = some gf
      rw [updF, if_neg (by rw [hgfc]; exact hne)]
  · push_neg at hex
    rw [addToGroups, addToGroupsGo_create c n _ gs hex, findGroup,
      List.find?_append, List.find?_cons_of_neg _ (by simpa using Ne.symm hne)]
    show Option.or _ none = _
    rw [Option.or_none]
    rfl

/-- A name absent from every member list, other than the one being added,
stays absent. -/
theorem addToGroups_fresh_preserved (gs : List PropGroup) (c : SupportCoords)
    (n m : String) (hWF : gs.Pairwise fun a b => a.support ≠ b.support)
    (hmn : m ≠ n) (hm : ∀ g ∈ gs, m ∉ g.members) :
    ∀ g ∈ addToGroups gs c n, m ∉ g.members := by
  by_cases hex : ∃ g0 ∈ gs, g0.support = c
  · rw [addToGroups, addToGroupsGo_update c n _ gs hWF hex]
    intro g hg
    obtain ⟨g0, hg0, rfl⟩ := List.mem_map.mp hg
    rw [updF]
    split
    · intro hmem
      rcases List.mem_append.mp hmem with h | h
      · exact hm g0 hg0 h
      · exact hmn (List.mem_singleton.mp h)
    · exact hm g0 hg0
  · push_neg at hex
    rw [addToGroups, addToGroupsGo_create c n _ gs hex]
    intro g hg
    rcases List.mem_append.mp hg with h | h
    · exact hm g h
    · rcases List.mem_singleton.mp h with rfl
      intro hmem
      exact hmn (List.mem_singleton.mp hmem)

/-- Adding a fresh name puts it in exactly one property group. -/
theorem addToGroups_count_self (gs : List PropGroup) (c : SupportCoords)
    (n : String) (hWF : gs.Pairwise fun a b => a.support ≠ b.support)
    (hn : ∀ g ∈ gs, n ∉ g.members) :
    groupsContaining (addToGroups gs c n) n = 1 := by
  by_cases hex : ∃ g0 ∈ gs, g0.support = c
  · rw [addToGroups, addToGroupsGo_update c n _ gs hWF hex, groupsContaining,
      List.countP_map]
    rw [List.countP_congr (q := fun g => g.support == c) ?_]
    · exact count_support_one c gs hWF hex
    · intro g hg
      simp only [Function.comp, updF, beq_iff_eq, decide_eq_true_eq]
      split
      · next hgc => simp [hgc]
      · next hgc =>
        constructor
        · intro hmem
          exact absurd hmem (hn g hg)
        · intro hc
          exact absurd hc hgc
  · push_neg at hex
    rw [addToGroups, addToGroupsGo_create c n _ gs hex, groupsContaining,
      List.countP_append]
    have h0 : (gs.countP fun g => n ∈ g.members) = 0 := by
      rw [List.countP_eq_zero]
      intro g hg
      simpa using hn g hg
    rw [h0]
    simp

/-- Adding one name never changes how many groups contain another name. -/
theorem addToGroups_count_other (gs : List PropGroup) (c : SupportCoords)
    (n m : String) (hWF : gs.Pairwise fun a b => a.support ≠ b.support)
    (hmn : m ≠ n) :
    groupsContaining (addToGroups gs c n) m = groupsContaining gs m := by
  by_cases hex : ∃ g0 ∈ gs, g0.support = c
  · rw [addToGroups, addToGroupsGo_update c n _ gs hWF hex, groupsContaining,
      List.countP_map, groupsContaining]
    refine List.countP_congr ?_
    intro g hg
    simp only [Function.comp, updF, decide_eq_true_eq]
    split
    · rw [List.mem_append, List.mem_singleton]
      constructor
      · rintro (h | h)
        · exact h
        · exact absurd h hmn
      · exact Or.inl
    · exact Iff.rfl
  · push_neg at hex
    rw [addToGroups, addToGroupsGo_create c n _ gs hex, groupsContaining,
      List.countP_append, groupsContaining]
    simp [List.countP_cons, hmn]

/-- The added name joins only the group carrying the requested support. -/
theorem addToGroups_only_target (gs : List PropGroup) (c : SupportCoords)
    (n : String) (hWF : gs.Pairwise fun a b => a.support ≠ b.support)
    (hn : ∀ g ∈ gs, n ∉ g.members) :
    ∀ g ∈ addToGroups gs c n, g.support ≠ c → n ∉ g.members := by
  by_cases hex : ∃ g0 ∈ gs, g0.support = c
  · rw [addToGroups, addToGroupsGo_update c n _ gs hWF hex]
    intro g hg hgc
    obtain ⟨g0, hg0, rfl⟩ := List.mem_map.mp hg
    rw [updF_support] at hgc
    rw [updF, if_neg hgc]
    exact hn g0 hg0
  · push_neg at hex
    rw [addToGroups, addToGroupsGo_create c n _ gs hex]
    intro g hg hgc
    rcases List.mem_append.mp hg with h | h
    · exact hn g h
    · rcases List.mem_singleton.mp h with rfl
      exact absurd rfl hgc

/-- C6: two columns added with identical support coordinates end up in the
same property group; a third column added with different coordinates does
not join that group; a fresh column ends up in exactly one property group
(so every column belongs to at most one); and adding a column to an existing
group grows exactly that group's member list, by exactly one entry. -/
theorem C6_property_group_membership (gs : List PropGroup)
    (c c2 : SupportCoords) (n1 n2 n3 : String)
    (hWF : gs.Pairwise fun a b => a.support ≠ b.support)
    (hf1 : ∀ g ∈ gs, n1 ∉ g.members)
    (hf2 : ∀ g ∈ gs, n2 ∉ g.members)
    (hf3 : ∀ g ∈ gs, n3 ∉ g.members)
    (h12 : n1 ≠ n2) (h13 : n1 ≠ n3) (h23 : n2 ≠ n3) (hcc : c2 ≠ c) :
    (∃ g, findGroup (addToGroups (addToGroups gs c n1) c n2) c = some g ∧
      n1 ∈ g.members ∧ n2 ∈ g.members) ∧
    (∀ g, findGroup (addToGroups (addToGroups (addToGroups gs c n1) c n2)
        c2 n3) c = some g → n3 ∉ g.members) ∧
    (groupsContaining (addToGroups (addToGroups (addToGroups gs c n1) c n2)
        c2 n3) n1 = 1 ∧
     groupsContaining (addToGroups (addToGroups (addToGroups gs c n1) c n2)
        c2 n3) n2 = 1 ∧
     groupsContaining (addToGroups (addToGroups (addToGroups gs c n1) c n2)
        c2 n3) n3 = 1) ∧
    (∀ g1 g2, findGroup (addToGroups gs c n1) c = some g1 →
      findGroup (addToGroups (addToGroups gs c n1) c n2) c = some g2 →
      g2.members = g1.members ++ [n2]) := by
  have hWF1 := addToGroups_WF gs c n1 hWF
  have hWF2 := addToGroups_WF (addToGroups gs c n1) c n2 hWF1
  have hf2a : ∀ g ∈ addToGroups gs c n1, n2 ∉ g.members :=
    addToGroups_fresh_preserved gs c n1 n2 hWF (Ne.symm h12) hf2
  have hf3a : ∀ g ∈ addToGroups gs c n1, n3 ∉ g.members :=
    addToGroups_fresh_preserved gs c n1 n3 hWF (Ne.symm h13) hf3
  have hf3b : ∀ g ∈ addToGroups (addToGroups gs c n1) c n2, n3 ∉ g.members :=
    addToGroups_fresh_preserved (addToGroups gs c n1) c n2 n3 hWF1
      (Ne.symm h23) hf3a
  obtain ⟨g1f, hfind1, hsup1, hmem1⟩ := addToGroups_found gs c n1 hWF
  obtain ⟨g2f, hfind2, hsup2, hmem2⟩ :=
    addToGroups_found (addToGroups gs c n1) c n2 hWF1
  have hother : findGroup (addToGroups (addToGroups (addToGroups gs c n1)
      c n2) c2 n3) c = findGroup (addToGroups (addToGroups gs c n1) c n2) c :=
    addToGroups_other_support _ c2 c n3 hWF2 (Ne.symm hcc)
  refine ⟨?_, ?_, ⟨?_, ?_, ?_⟩, ?_⟩
  · refine ⟨g2f, hfind2, ?_, ?_⟩
    · rw [hmem2, hfind1]
      refine List.mem_append.mpr (Or.inl ?_)
      show n1 ∈ (some g1f.members).getD []
      rw [hmem1]
      exact List.mem_append.mpr (Or.inr (List.mem_singleton.mpr rfl))
    · rw [hmem2]
      exact List.mem_append.mpr (Or.inr (List.mem_singleton.mpr rfl))
  · intro g hg
    rw [hother] at hg
    have hmem : g ∈ addToGroups (addToGroups gs c n1) c n2 := by
      rw [findGroup] at hg
      exact List.mem_of_find?_eq_some hg
    exact hf3b g hmem
  · rw [addToGroups_count_other _ c2 n3 n1 hWF2 h13,
      addToGroups_count_other _ c n2 n1 hWF1 h12]
    exact addToGroups_count_self gs c n1 hWF hf1
  · rw [addToGroups_count_other _ c2 n3 n2 hWF2 h23]
    exact addToGroups_count_self (addToGroups gs c n1) c n2 hWF1 hf2a
  · exact addToGroups_count_self (addToGroups (addToGroups gs c n1) c n2)
      c2 n3 hWF2 hf3b
  · intro g1 g2 hg1 hg2
    have he1 : g1 = g1f := Option.some_injective _ (hg1.symm.trans hfind1)
    have he2 : g2 = g2f := Option.some_injective _ (hg2.symm.trans hfind2)
    subst he1
    subst he2
    rw [hmem2, hfind1]
    rfl

/-- C6 witness: two columns added with the depth coordinates `[0, 1]` share
one group, a third column with coordinates `[5]` stays out of it, each of
the three belongs to exactly one group, and the second add grew the first
group's member list by exactly one. -/
theorem C6_property_group_membership_witness :
    (∃ g, findGroup (addToGroups (addToGroups [] (SupportCoords.depth [0, 1])
        "log_a") (SupportCoords.depth [0, 1]) "log_b")
        (SupportCoords.depth [0, 1]) = some g ∧
      "log_a" ∈ g.members ∧ "log_b" ∈ g.members) ∧
    (∀ g, findGroup (addToGroups (addToGroups (addToGroups []
        (SupportCoords.depth [0, 1]) "log_a") (SupportCoords.depth [0, 1])
        "log_b") (SupportCoords.depth [5]) "log_c")
        (SupportCoords.depth [0, 1]) = some g → "log_c" ∉ g.members) ∧
    (groupsContaining (addToGroups (addToGroups (addToGroups []
        (SupportCoords.depth [0, 1]) "log_a") (SupportCoords.depth [0, 1])
        "log_b") (SupportCoords.depth [5]) "log_c") "log_a" = 1 ∧
     groupsContaining (addToGroups (addToGroups (addToGroups []
        (SupportCoords.depth [0, 1]) "log_a") (SupportCoords.depth [0, 1])
        "log_b") (SupportCoords.depth [5]) "log_c") "log_b" = 1 ∧
     groupsContaining (addToGroups (addToGroups (addToGroups []
        (SupportCoords.depth [0, 1]) "log_a") (SupportCoords.depth [0, 1])
        "log_b") (SupportCoords.depth [5]) "log_c") "log_c" = 1) ∧
    (∀ g1 g2, findGroup (addToGroups [] (SupportCoords.depth [0, 1]) "log_a")
        (SupportCoords.depth [0, 1]) = some g1 →
      findGroup (addToGroups (addToGroups [] (SupportCoords.depth [0, 1])
        "log_a") (SupportCoords.depth [0, 1]) "log_b")
        (SupportCoords.depth [0, 1]) = some g2 →
      g2.members = g1.members ++ ["log_b"]) :=
  C6_property_group_membership [] (SupportCoords.depth [0, 1])
    (SupportCoords.depth [5]) "log_a" "log_b" "log_c"
    (by simp) (by simp) (by simp) (by simp)
    (by decide) (by decide) (by decide) (by decide)

/-! ## Theorems for claim C3 (atomic staged commit) -/

/-- Updating a key makes its lookup return the new value. -/
theorem alookup_aupdate_self {α β : Type} [DecidableEq α] (l : List (α × β))
    (k : α) (v : β) : alookup (aupdate l k v) k = some v := by
  induction l with
  | nil => rw [aupdate, alookup, if_pos rfl]
  | cons p rest ih =>
    by_cases hp : p.1 = k
    · rw [aupdate, if_pos hp, alookup, if_pos rfl]
    · rw [aupdate, if_neg hp, alookup, if_neg hp]
      exact ih

/-- Updating a key leaves every other key's lookup unchanged. -/
theorem alookup_aupdate_ne {α β : Type} [DecidableEq α] (l : List (α × β))
    (k k2 : α) (v : β) (h : k2 ≠ k) :
    alookup (aupdate l k v) k2 = alookup l k2 := by
  have hk : k ≠ k2 := fun he => h he.symm
  induction l with
  | nil => simp [aupdate, alookup, hk]
  | cons p rest ih =>
    by_cases hp : p.1 = k
    · have hp2 : p.1 ≠ k2 := by rw [hp]; exact hk
      rw [aupdate, if_pos hp, alookup, if_neg hk, alookup, if_neg hp2]
    · rw [aupdate, if_neg hp, alookup, alookup]
      split
      · rfl
      · exact ih

/-- The row count recorded by an index table is additive over append. -/
theorem countSum_append (l1 l2 : List (Nat × Nat × Nat)) :
    countSum (l1 ++ l2) = countSum l1 + countSum l2 := by
  rw [countSum, countSum, countSum, List.map_append, List.sum_append]

/-- The store after a committed `write_array`. -/
theorem write_array_commit_cases (s : Store) (attr : String) (oid : Nat)
    (vals : List (Option ℚ)) (a : String) :
    let s2 : Store :=
      { s with
        arrays := aupdate s.arrays attr (arrOf s attr ++ vals)
        index := aupdate s.index attr
          (idxOf s attr ++ [(oid, (arrOf s attr).length, vals.length)]) }
    (alookup s2.arrays a = alookup s.arrays a ∧
     alookup s2.index a = alookup s.index a) ∨
    (a = attr ∧ alookup s2.arrays a = some (arrOf s attr ++ vals) ∧
     alookup s2.index a
       = some (idxOf s attr ++ [(oid, (arrOf s attr).length, vals.length)])) := by
  intro s2
  by_cases ha : a = attr
  · subst ha
    exact Or.inr ⟨rfl, alookup_aupdate_self _ _ _, alookup_aupdate_self _ _ _⟩
  · exact Or.inl ⟨alookup_aupdate_ne _ _ _ _ ha, alookup_aupdate_ne _ _ _ _ ha⟩

/-- A committed `write_array` preserves the count/length store invariant. -/
theorem write_array_commit_inv (s : Store) (attr : String) (oid : Nat)
    (vals : List (Option ℚ)) (hinv : storeInv s) :
    storeInv
      { s with
        arrays := aupdate s.arrays attr (arrOf s attr ++ vals)
        index := aupdate s.index attr
          (idxOf s attr ++ [(oid, (arrOf s attr).length, vals.length)]) } := by
  intro a
  by_cases ha : a = attr
  · subst ha
    show countSum ((alookup (aupdate s.index a
          (idxOf s a ++ [(oid, (arrOf s a).length, vals.length)])) a).getD [])
        = ((alookup (aupdate s.arrays a (arrOf s a ++ vals)) a).getD []).length
    rw [alookup_aupdate_self, alookup_aupdate_self, Option.getD_some,
      Option.getD_some, countSum_append, List.length_append, hinv a]
    rw [countSum]
    simp
  · show countSum ((alookup (aupdate s.index attr
          (idxOf s attr ++ [(oid, (arrOf s attr).length, vals.length)])) a).getD [])
        = ((alookup (aupdate s.arrays attr (arrOf s attr ++ vals)) a).getD []).length
    rw [alookup_aupdate_ne _ _ _ _ ha, alookup_aupdate_ne _ _ _ _ ha]
    exact hinv a

/-- C3: a `write_array` call that fails with any error returns the store in
its exact pre-call state; a call that succeeds updates the attribute's
shared array and its index table together (every other attribute's array and
index are untouched), and the sum-of-counts/array-length invariant is
preserved either way. -/
theorem C3_write_array_atomic (s : Store) (attr : String) (oid : Nat)
    (vals : List (Option ℚ)) (expected : Option Nat) :
    (∀ e, (write_array s attr oid vals expected).2 = some e →
      (write_array s attr oid vals expected).1 = s) ∧
    ((write_array s attr oid vals expected).2 = none →
      ∀ a, (alookup (write_array s attr oid vals expected).1.arrays a
              = alookup s.arrays a ∧
            alookup (write_array s attr oid vals expected).1.index a
              = alookup s.index a) ∨
        (a = attr ∧
         alookup (write_array s attr oid vals expected).1.arrays a
           = some (arrOf s attr ++ vals) ∧
         alookup (write_array s attr oid vals expected).1.index a
           = some (idxOf s attr
               ++ [(oid, (arrOf s attr).length, vals.length)]))) ∧
    (storeInv s → storeInv (write_array s attr oid vals expected).1) := by
  by_cases hreg : oid ∈ s.object_ids
  · cases expected with
    | none =>
      cases htbl : tableLookup (idxOf s attr) oid with
      | some rng =>
        refine ⟨fun e _ => ?_, fun hnone => ?_, fun hinv => ?_⟩
        · rw [write_array.eq_def, if_pos hreg]
          simp [htbl]
        · rw [write_array.eq_def, if_pos hreg] at hnone
          simp [htbl] at hnone
        · rw [write_array.eq_def, if_pos hreg]
          simpa [htbl] using hinv
      | none =>
        refine ⟨fun e he => ?_, fun _ => fun a => ?_, fun hinv => ?_⟩
        · rw [write_array.eq_def, if_pos hreg] at he
          simp [htbl] at he
        · rw [write_array.eq_def, if_pos hreg]
          simpa [htbl] using write_array_commit_cases s attr oid vals a
        · rw [write_array.eq_def, if_pos hreg]
          simpa [htbl] using write_array_commit_inv s attr oid vals hinv
    | some L =>
      by_cases hlen : vals.length = L
      · cases htbl : tableLookup (idxOf s attr) oid with
        | some rng =>
          refine ⟨fun e _ => ?_, fun hnone => ?_, fun hinv => ?_⟩
          · rw [write_array.eq_def, if_pos hreg]
            simp [htbl, hlen]
          · rw [write_array.eq_def, if_pos hreg] at hnone
            simp [htbl, hlen] at hnone
          · rw [write_array.eq_def, if_pos hreg]
            simpa [htbl, hlen] using hinv
        | none =>
          refine ⟨fun e he => ?_, fun _ => fun a => ?_, fun hinv => ?_⟩
          · rw [write_array.eq_def, if_pos hreg] at he
            simp [htbl, hlen] at he
          · rw [write_array.eq_def, if_pos hreg]
            simpa [htbl, hlen] using write_array_commit_cases s attr oid vals a
          · rw [write_array.eq_def, if_pos hreg]
            simpa [htbl, hlen] using write_array_commit_inv s attr oid vals hinv
      · refine ⟨fun e _ => ?_, fun hnone => ?_, fun hinv => ?_⟩
        · rw [write_array.eq_def, if_pos hreg]
          simp [hlen]
        · rw [write_array.eq_def, if_pos hreg] at hnone
          simp [hlen] at hnone
        · rw [write_array.eq_def, if_pos hreg]
          simpa [hlen] using hinv
  · refine ⟨fun e _ => ?_, fun hnone => ?_, fun hinv => ?_⟩
    · rw [write_array.eq_def, if_neg hreg]
    · rw [write_array.eq_def, if_neg hreg] at hnone
      simp at hnone
    · rw [write_array.eq_def, if_neg hreg]
      exact hinv

/-- The witness store satisfies the count/length invariant. -/
theorem storeW_inv : storeInv storeW := by
  intro a
  by_cases hd : "Depth" = a
  · rw [← hd]
    decide
  · show countSum ((alookup storeW.index a).getD [])
        = ((alookup storeW.arrays a).getD []).length
    show countSum ((alookup [("Depth", [(1, 0, 2)])] a).getD [])
        = ((alookup [("Depth", [some 0, some 1])] a).getD []).length
    simp only [alookup, if_neg hd]
    rfl

/-- C3 witness: on a concrete store, a shape-mismatched `write_array` returns
the error with the store byte-for-byte unchanged; the corrected call commits
and the count/length invariant still holds on the result. -/
theorem C3_write_array_atomic_witness :
    (write_array storeW "Values" 1 [some 5] (some 2)).2
        = some Err.shapeMismatch ∧
    (write_array storeW "Values" 1 [some 5] (some 2)).1 = storeW ∧
    (write_array storeW "Values" 1 [some 5, some 6] (some 2)).2 = none ∧
    storeInv (write_array storeW "Values" 1 [some 5, some 6] (some 2)).1 :=
  ⟨by decide,
   (C3_write_array_atomic storeW "Values" 1 [some 5] (some 2)).1
     Err.shapeMismatch (by decide),
   by decide,
   (C3_write_array_atomic storeW "Values" 1 [some 5, some 6] (some 2)).2.2
     storeW_inv⟩

/-! ## Theorems for claim C7 (copy round trip) -/

/-- Appending a binding for an absent key makes it the one found. -/
theorem alookup_append_fresh {α β : Type} [DecidableEq α] (l : List (α × β))
    (k : α) (v : β) (h : ∀ p ∈ l, p.1 ≠ k) :
    alookup (l ++ [(k, v)]) k = some v := by
  induction l with
  | nil => rw [List.nil_append, alookup, if_pos rfl]
  | cons p rest ih =>
    rw [List.cons_append, alookup,
      if_neg (h p (List.mem_cons_self p rest))]
    exact ih fun q hq => h q (List.mem_cons_of_mem p hq)

/-- An index table that never mentions an object yields no range for it. -/
theorem tableLookup_none (tbl : List (Nat × Nat × Nat)) (x : Nat)
    (h : ∀ tr ∈ tbl, tr.1 ≠ x) : tableLookup tbl x = none := by
  induction tbl with
  | nil => rfl
  | cons tr rest ih =>
    rw [tableLookup, if_neg (h tr (List.mem_cons_self tr rest))]
    exact ih fun q hq => h q (List.mem_cons_of_mem tr hq)

/-- Appending a range for an absent object makes it the one found. -/
theorem tableLookup_append_self (tbl : List (Nat × Nat × Nat)) (x : Nat)
    (rng : Nat × Nat) (h : ∀ tr ∈ tbl, tr.1 ≠ x) :
    tableLookup (tbl ++ [(x, rng)]) x = some rng := by
  induction tbl with
  | nil => rw [List.nil_append, tableLookup, if_pos rfl]
  | cons tr rest ih =>
    rw [List.cons_append, tableLookup,
      if_neg (h tr (List.mem_cons_self tr rest))]
    exact ih fun q hq => h q (List.mem_cons_of_mem tr hq)

/-- `copyAttr` never touches the registry fields. -/
theorem copyAttr_registry (src : Store) (oid newId : Nat) (dst : Store)
    (attr : String) :
    (copyAttr src oid newId dst attr).object_ids = dst.object_ids ∧
    (copyAttr src oid newId dst attr).attributes = dst.attributes ∧
    (copyAttr src oid newId dst attr).nextId = dst.nextId := by
  unfold copyAttr
  cases read_array src attr oid <;> exact ⟨rfl, rfl, rfl⟩

/-- `copyAttr` on one attribute leaves every other attribute's shared array
and index untouched. -/
theorem copyAttr_other (src : Store) (oid newId : Nat) (dst : Store)
    (b a : String) (hba : a ≠ b) :
    alookup (copyAttr src oid newId dst b).arrays a = alookup dst.arrays a ∧
    alookup (copyAttr src oid newId dst b).index a = alookup dst.index a := by
  unfold copyAttr
  cases read_array src b oid with
  | none => exact ⟨rfl, rfl⟩
  | some slice =>
    exact ⟨alookup_aupdate_ne _ _ _ _ hba, alookup_aupdate_ne _ _ _ _ hba⟩

/-- `copyAttr` at an attribute reads only that attribute's entries of the
destination, so two destinations agreeing there produce the same entries. -/
theorem copyAttr_same_congr (src : Store) (oid newId : Nat) (d dst : Store)
    (a : String) (h1 : alookup d.arrays a = alookup dst.arrays a)
    (h2 : alookup d.index a = alookup dst.index a) :
    alookup (copyAttr src oid newId d a).arrays a
      = alookup (copyAttr src oid newId dst a).arrays a ∧
    alookup (copyAttr src oid newId d a).index a
      = alookup (copyAttr src oid newId dst a).index a := by
  unfold copyAttr
  cases read_array src a oid with
  | none => exact ⟨h1, h2⟩
  | some slice =>
    constructor
    · rw [alookup_aupdate_self, alookup_aupdate_self]
      simp only [arrOf, h1]
    · rw [alookup_aupdate_self, alookup_aupdate_self]
      simp only [arrOf, idxOf, h1, h2]

/-- The attribute-copy fold never touches the registry fields. -/
theorem foldCopy_registry (src : Store) (oid newId : Nat) :
    ∀ (attrs : List String) (dst : Store),
    ((attrs.foldl (copyAttr src oid newId) dst).object_ids = dst.object_ids ∧
     (attrs.foldl (copyAttr src oid newId) dst).attributes = dst.attributes) := by
  intro attrs
  induction attrs with
  | nil => intro dst; exact ⟨rfl, rfl⟩
  | cons x rest ih =>
    intro dst
    rw [List.foldl_cons]
    obtain ⟨h1, h2⟩ := ih (copyAttr src oid newId dst x)
    obtain ⟨g1, g2, -⟩ := copyAttr_registry src oid newId dst x
    exact ⟨h1.trans g1, h2.trans g2⟩

/-- The attribute-copy fold leaves attributes outside the copied list
untouched. -/
theorem foldCopy_not_mem (src : Store) (oid newId : Nat) :
    ∀ (attrs : List String) (dst : Store) (a : String), a ∉ attrs →
    alookup (attrs.foldl (copyAttr src oid newId) dst).arrays a
      = alookup dst.arrays a ∧
    alookup (attrs.foldl (copyAttr src oid newId) dst).index a
      = alookup dst.index a := by
  intro attrs
  induction attrs with
  | nil => intro dst a _; exact ⟨rfl, rfl⟩
  | cons x rest ih =>
    intro dst a ha
    have hax : a ≠ x := fun h => ha (h ▸ List.mem_cons_self x rest)
    have har : a ∉ rest := fun h => ha (List.mem_cons_of_mem x h)
    rw [List.foldl_cons]
    obtain ⟨h1, h2⟩ := ih (copyAttr src oid newId dst x) a har
    obtain ⟨o1, o2⟩ := copyAttr_other src oid newId dst x a hax
    exact ⟨h1.trans o1, h2.trans o2⟩

/-- For an attribute inside the copied list (each attribute listed once),
the fold's entries at that attribute are those of a single `copyAttr` on the
original destination. -/
theorem foldCopy_mem (src : Store) (oid newId : Nat) :
    ∀ (attrs : List String) (dst : Store) (a : String), attrs.Nodup →
    a ∈ attrs →
    alookup (attrs.foldl (copyAttr src oid newId) dst).arrays a
      = alookup (copyAttr src oid newId dst a).arrays a ∧
    alookup (attrs.foldl (copyAttr src oid newId) dst).index a
      = alookup (copyAttr src oid newId dst a).index a := by
  intro attrs
  induction attrs with
  | nil => intro dst a _ ha; cases ha
  | cons x rest ih =>
    intro dst a hnd hmem
    rw [List.foldl_cons]
    by_cases hax : a = x
    · subst hax
      exact foldCopy_not_mem src oid newId rest
        (copyAttr src oid newId dst a) a (List.nodup_cons.mp hnd).1
    · have hmem2 : a ∈ rest := by
        rcases List.mem_cons.mp hmem with h | h
        · exact absurd h hax
        · exact h
      obtain ⟨i1, i2⟩ := ih (copyAttr src oid newId dst x) a
        (List.nodup_cons.mp hnd).2 hmem2
      obtain ⟨o1, o2⟩ := copyAttr_other src oid newId dst x a hax
      obtain ⟨c1, c2⟩ := copyAttr_same_congr src oid newId
        (copyAttr src oid newId dst x) dst a o1 o2
      exact ⟨i1.trans c1, i2.trans c2⟩

/-- `read_array` depends only on the attribute's array and index entries. -/
theorem read_array_congr (s1 s2 : Store) (a : String) (x : Nat)
    (h1 : alookup s1.arrays a = alookup s2.arrays a)
    (h2 : alookup s1.index a = alookup s2.index a) :
    read_array s1 a x = read_array s2 a x := by
  rw [read_array.eq_def, read_array.eq_def]
  simp only [arrOf, h1, h2]

/-- Copying one attribute slice makes it readable under the new identifier,
byte-for-byte equal to the source object's slice. -/
theorem copyAttr_read (src dst : Store) (oid newId : Nat) (a : String)
    (hfresh : ∀ tr ∈ idxOf dst a, tr.1 ≠ newId) :
    read_array (copyAttr src oid newId dst a) a newId
      = read_array src a oid := by
  cases hra : read_array src a oid with
  | none =>
    have hcd : copyAttr src oid newId dst a = dst := by
      rw [copyAttr.eq_def, hra]
    rw [hcd, read_array.eq_def]
    cases htbl : alookup dst.index a with
    | none => rfl
    | some tbl =>
      have hn : tableLookup tbl newId = none := by
        refine tableLookup_none tbl newId fun tr htr => hfresh tr ?_
        rw [idxOf, htbl]
        exact htr
      simp [hn]
  | some slice =>
    have hcd : copyAttr src oid newId dst a
        = { dst with
            arrays := aupdate dst.arrays a (arrOf dst a ++ slice)
            index := aupdate dst.index a
              (idxOf dst a ++ [(newId, (arrOf dst a).length, slice.length)]) } := by
      rw [copyAttr.eq_def, hra]
    have hfr := tableLookup_append_self (idxOf dst a) newId
      ((arrOf dst a).length, slice.length) hfresh
    rw [hcd, read_array.eq_def]
    simp only [arrOf, idxOf] at hfr ⊢
    simp only [alookup_aupdate_self, hfr, Option.getD_some]
    rw [List.drop_left, List.take_length]

/-- C7: copying an object into a target store succeeds, hands the copy a
fresh identifier recorded in the id remap, duplicates the attribute blob
with cross-references rewritten through the remap, carries the
property-group membership over unchanged, and every copied array slice reads
back equal to the original object's slice. -/
theorem C7_copy_round_trip (src dst : Store) (oid : Nat) (attrs : List String)
    (remap : List (Nat × Nat)) (record : ObjRecord)
    (hfresh : Store.freshIds dst) (hnodup : attrs.Nodup)
    (hrec : alookup src.attributes oid = some record) :
    ∃ dst2 newId remap2,
      copyObject src dst oid attrs remap = ((dst2, newId, remap2), none) ∧
      newId ∉ dst.object_ids ∧
      newId ∈ dst2.object_ids ∧
      alookup remap2 oid = some newId ∧
      alookup dst2.attributes newId
        = some { blob := rewriteBlob remap2 record.blob
                 groups := record.groups } ∧
      (∀ attr ∈ attrs, read_array dst2 attr newId = read_array src attr oid) := by
  refine ⟨attrs.foldl (copyAttr src oid dst.nextId)
      { dst with
        nextId := dst.nextId + 1
        object_ids := dst.object_ids ++ [dst.nextId]
        attributes := dst.attributes ++
          [(dst.nextId,
            { blob := rewriteBlob (aupdate remap oid dst.nextId) record.blob
              groups := record.groups })] },
    dst.nextId, aupdate remap oid dst.nextId, ?_, ?_, ?_, ?_, ?_, ?_⟩
  · rw [copyObject.eq_def, hrec]
  · intro h
    exact absurd (hfresh.1 _ h) (lt_irrefl _)
  · rw [(foldCopy_registry src oid dst.nextId attrs _).1]
    exact List.mem_append_right _ (List.mem_singleton.mpr rfl)
  · exact alookup_aupdate_self _ _ _
  · rw [(foldCopy_registry src oid dst.nextId attrs _).2]
    show alookup (dst.attributes ++ [(dst.nextId, _)]) dst.nextId = _
    rw [alookup_append_fresh]
    intro p hp
    exact Nat.ne_of_lt (hfresh.2.1 p hp)
  · intro a ha
    obtain ⟨h1, h2⟩ := foldCopy_mem src oid dst.nextId attrs _ a hnodup ha
    rw [read_array_congr _ _ a dst.nextId h1 h2]
    refine copyAttr_read src _ oid dst.nextId a ?_
    intro tr htr
    exact Nat.ne_of_lt (hfresh.2.2 a tr htr)

/-- The empty store trivially satisfies the freshness discipline. -/
theorem emptyStore_fresh : Store.freshIds emptyStore := by
  refine ⟨?_, ?_, ?_⟩
  · intro x hx
    simp [emptyStore] at hx
  · intro p hp
    simp [emptyStore] at hp
  · intro attr tr htr
    simp [emptyStore, idxOf, alookup] at htr

/-- C7 witness: copying the concrete well into an empty store allocates the
fresh identifier 0, records `1 ↦ 0` in the remap, duplicates the blob with
the `Parent` cross-reference rewritten from 1 to 0, and reads the depth
slice back unchanged. -/
theorem C7_copy_round_trip_witness :
    (∃ dst2 newId remap2,
      copyObject storeW emptyStore 1 ["Depth"] [] = ((dst2, newId, remap2), none) ∧
      newId ∉ emptyStore.object_ids ∧
      newId ∈ dst2.object_ids ∧
      alookup remap2 1 = some newId ∧
      alookup dst2.attributes newId
        = some { blob := rewriteBlob remap2
                   [("Name", BlobVal.str "bullseye"), ("Parent", BlobVal.ref 1)]
                 groups := [] } ∧
      (∀ attr ∈ ["Depth"], read_array dst2 attr newId = read_array storeW attr 1)) ∧
    read_array (copyObject storeW emptyStore 1 ["Depth"] []).1.1 "Depth" 0
      = some [some 0, some 1] ∧
    rewriteBlob [(1, 0)] [("Name", BlobVal.str "bullseye"),
        ("Parent", BlobVal.ref 1)]
      = [("Name", BlobVal.str "bullseye"), ("Parent", BlobVal.ref 0)] :=
  ⟨C7_copy_round_trip storeW emptyStore 1 ["Depth"] []
      { blob := [("Name", BlobVal.str "bullseye"), ("Parent", BlobVal.ref 1)]
        groups := [] }
      emptyStore_fresh (by decide) (by decide),
   by decide, by decide⟩

/-! ## Theorems for claim C2 (shape mismatch) -/

/-- Padding to the length of a support at least as long as the values yields
exactly the support length. -/
theorem padValues_length (vals : List (Option ℚ)) (L : Nat)
    (h : vals.length ≤ L) : (padValues vals L).length = L := by
  rw [padValues, List.length_append, List.length_replicate]
  omega

/-- C2 counterexample: the drillhole test's own call supplying 30 values
against 50 depth rows does not fail — it is accepted (the stored column is
padded to 50 entries), refuting the claim that every length mismatch fails
with `ShapeMismatchError`. -/
theorem C2_shape_mismatch_counterexample :
    vals30.length = 30 ∧ depths50.length = 50 ∧
    (add_data emptyDObject
      ⟨"my_log_values", some depths50, none, vals30⟩ (1 / 100)).isOk = true := by
  refine ⟨by decide, by decide, by decide⟩

/-- C2 (amended): a call writing values against an existing property-group
support fails with `ShapeMismatchError` whenever the value count differs
from the group's support length, and no modified object is produced; an
`add_data` call supplying depth coordinates fails with `ShapeMismatchError`
when the values outnumber the coordinates, while a shorter value array is
accepted with the missing value sentinel padded up to the support length. -/
theorem C2_shape_mismatch (o : DObject) (name gname : String)
    (vals : List (Option ℚ)) (g : PropGroup) (d : List ℚ) (tol : ℚ) :
    (alookup o.columns name = none →
      o.groups.find? (fun h => h.pname == gname) = some g →
      vals.length ≠ (match g.support with
        | SupportCoords.depth dd => dd.length
        | SupportCoords.interval ft => ft.length) →
      add_data_to_group o name vals gname = Except.error Err.shapeMismatch) ∧
    (0 < tol → alookup o.columns name = none → d.length < vals.length →
      add_data o ⟨name, some d, none, vals⟩ tol
        = Except.error Err.shapeMismatch) ∧
    (0 < tol → alookup o.columns name = none → o.depthSupport = none →
      vals.length ≤ d.length →
      add_data o ⟨name, some d, none, vals⟩ tol
        = Except.ok { o with
            depthSupport := some d
            columns := o.columns ++
              [(name, ⟨SupportKind.depth, padValues vals d.length⟩)]
            groups := addToGroups o.groups (SupportCoords.depth d) name } ∧
      (padValues vals d.length).length = d.length) := by
  refine ⟨?_, ?_, ?_⟩
  · intro hfr hfind hlen
    rw [add_data_to_group]
    rw [if_neg (by rw [hfr]; simp), hfind]
    simp only [if_pos hlen]
  · intro ht hfr hlen
    have ht2 : ¬ tol ≤ 0 := not_le.mpr ht
    cases hsup : o.depthSupport with
    | none => simp [add_data, ht2, hfr, addDepthCore, hsup, hlen]
    | some E => simp [add_data, ht2, hfr, addDepthCore, hsup, hlen]
  · intro ht hfr hsup hlen
    have ht2 : ¬ tol ≤ 0 := not_le.mpr ht
    have hlen2 : ¬ d.length < vals.length := Nat.not_lt.mpr hlen
    refine ⟨?_, padValues_length vals d.length hlen⟩
    simp [add_data, ht2, hfr, addDepthCore, hsup, hlen2]

/-- C2 witness: 49 values against the 50-row property-group support of the
concrete well are rejected with the shape error; 3 values against 2 depths
are rejected; 30 values against 50 depths are accepted and padded to 50. -/
theorem C2_shape_mismatch_witness :
    add_data_to_group wellAfterFirstLog "new_data" vals49 "Property Group 0"
      = Except.error Err.shapeMismatch ∧
    add_data emptyDObject ⟨"new_data", some [0, 1], none,
        [some 1, some 2, some 3]⟩ (1 / 2) = Except.error Err.shapeMismatch ∧
    add_data emptyDObject ⟨"my_log_values", some depths50, none, vals30⟩ (1 / 100)
      = Except.ok { emptyDObject with
          depthSupport := some depths50
          columns := [("my_log_values",
            ⟨SupportKind.depth, padValues vals30 depths50.length⟩)]
          groups := addToGroups [] (SupportCoords.depth depths50) "my_log_values" } ∧
    (padValues vals30 depths50.length).length = 50 := by
  have h1 := (C2_shape_mismatch wellAfterFirstLog "new_data" "Property Group 0"
    vals49 pg0 [] 1).1 (by decide) (by decide) (by decide)
  have h2 := (C2_shape_mismatch emptyDObject "new_data" "x"
    [some 1, some 2, some 3] dummyGroup [0, 1] (1 / 2)).2.1
    (by decide) (by decide) (by decide)
  have h3 := (C2_shape_mismatch emptyDObject "my_log_values" "x" vals30
    dummyGroup depths50 (1 / 100)).2.2 (by decide) (by decide) (by decide)
    (by decide)
  exact ⟨h1, h2, h3.1, by decide⟩

/-! ## Theorems for claim C1 (depth merge) -/

/-- Every matched pair of the two-pointer scan points at a real row and a
real sample whose distance is within the tolerance. -/
theorem depthMatchGo_mem (t : ℚ) :
    ∀ (fuel : Nat) (E N : List ℚ), ∀ p ∈ depthMatchGo t fuel E N,
      p.1 < E.length ∧ p.2 < N.length ∧
      ∃ e x, E[p.1]? = some e ∧ N[p.2]? = some x ∧ |x - e| ≤ t := by
  intro fuel
  induction fuel with
  | zero =>
    intro E N p hp
    simp [depthMatchGo] at hp
  | succ fuel ih =>
    intro E N p hp
    match E, N with
    | [], _ => simp [depthMatchGo] at hp
    | _ :: _, [] => simp [depthMatchGo] at hp
    | e :: es, x :: xs =>
      rw [depthMatchGo] at hp
      by_cases h1 : |x - e| ≤ t
      · rw [if_pos h1] at hp
        rcases List.mem_cons.mp hp with rfl | hp2
        · exact ⟨Nat.succ_pos _, Nat.succ_pos _, e, x,
            List.getElem?_cons_zero, List.getElem?_cons_zero, h1⟩
        · obtain ⟨q, hq, rfl⟩ := List.mem_map.mp hp2
          obtain ⟨b1, b2, e2, x2, he2, hx2, hle⟩ := ih es xs q hq
          refine ⟨Nat.succ_lt_succ b1, Nat.succ_lt_succ b2, e2, x2, ?_, ?_, hle⟩
          · rw [List.getElem?_cons_succ]
            exact he2
          · rw [List.getElem?_cons_succ]
            exact hx2
      · rw [if_neg h1] at hp
        by_cases h2 : x < e
        · rw [if_pos h2] at hp
          obtain ⟨q, hq, rfl⟩ := List.mem_map.mp hp
          obtain ⟨b1, b2, e2, x2, he2, hx2, hle⟩ := ih (e :: es) xs q hq
          refine ⟨b1, Nat.succ_lt_succ b2, e2, x2, he2, ?_, hle⟩
          rw [List.getElem?_cons_succ]
          exact hx2
        · rw [if_neg h2] at hp
          obtain ⟨q, hq, rfl⟩ := List.mem_map.mp hp
          obtain ⟨b1, b2, e2, x2, he2, hx2, hle⟩ := ih es (x :: xs) q hq
          refine ⟨Nat.succ_lt_succ b1, b2, e2, x2, ?_, hx2, hle⟩
          rw [List.getElem?_cons_succ]
          exact he2

/-- The matched pairs are strictly increasing in both components: the scan
runs left to right and consumes each row and each sample at most once. -/
theorem depthMatchGo_pairwise (t : ℚ) :
    ∀ (fuel : Nat) (E N : List ℚ),
      (depthMatchGo t fuel E N).Pairwise fun p q => p.1 < q.1 ∧ p.2 < q.2 := by
  intro fuel
  induction fuel with
  | zero =>
    intro E N
    simp [depthMatchGo]
  | succ fuel ih =>
    intro E N
    match E, N with
    | [], _ => simp [depthMatchGo]
    | _ :: _, [] => simp [depthMatchGo]
    | e :: es, x :: xs =>
      rw [depthMatchGo]
      by_cases h1 : |x - e| ≤ t
      · rw [if_pos h1]
        refine List.Pairwise.cons ?_ ?_
        · intro q hq
          obtain ⟨q0, hq0, rfl⟩ := List.mem_map.mp hq
          exact ⟨Nat.succ_pos _, Nat.succ_pos _⟩
        · exact List.Pairwise.map _
            (fun a b hab => ⟨Nat.succ_lt_succ hab.1, Nat.succ_lt_succ hab.2⟩)
            (ih es xs)
      · rw [if_neg h1]
        by_cases h2 : x < e
        · rw [if_pos h2]
          exact List.Pairwise.map _
            (fun a b hab => ⟨hab.1, Nat.succ_lt_succ hab.2⟩) (ih (e :: es) xs)
        · rw [if_neg h2]
          exact List.Pairwise.map _
            (fun a b hab => ⟨Nat.succ_lt_succ hab.1, hab.2⟩) (ih es (x :: xs))

/-- With sample indices strictly increasing, a matched pair is the one that
`matchedRow` reports for its sample. -/
theorem matchedRow_of_mem (ms : List (Nat × Nat))
    (hpw : ms.Pairwise fun p q => p.2 < q.2) (i j : Nat)
    (hm : (i, j) ∈ ms) : matchedRow ms j = some i := by
  induction ms with
  | nil => cases hm
  | cons p rest ih =>
    by_cases hpj : p.2 = j
    · have hip : (i, j) = p := by
        rcases List.mem_cons.mp hm with h | h
        · exact h
        · exfalso
          have := (List.pairwise_cons.mp hpw).1 (i, j) h
          rw [hpj] at this
          exact lt_irrefl j this
      rw [matchedRow, List.find?_cons_of_pos _ (by simpa using hpj), ← hip]
      rfl
    · have hm2 : (i, j) ∈ rest := by
        rcases List.mem_cons.mp hm with h | h
        · exact absurd (by rw [← h]) hpj
        · exact h
      rw [matchedRow, List.find?_cons_of_neg _ (by simpa using hpj)]
      exact ih (List.pairwise_cons.mp hpw).2 hm2

/-- What `matchedRow` reports is a matched pair of the scan. -/
theorem mem_of_matchedRow (ms : List (Nat × Nat)) (i j : Nat)
    (h : matchedRow ms j = some i) : (i, j) ∈ ms := by
  rw [matchedRow] at h
  cases hf : ms.find? (fun p => p.2 == j) with
  | none => rw [hf] at h; cases h
  | some q =>
    rw [hf] at h
    have hq2 : q.2 = j := by simpa using List.find?_some hf
    have hq1 : q.1 = i := by simpa using h
    have hq : (i, j) = q := by rw [← hq1, ← hq2]
    rw [hq]
    exact List.mem_of_find?_eq_some hf

/-- A sample `matchedRow` knows nothing about is an unmatched index. -/
theorem mem_unmatchedIdx (ms : List (Nat × Nat)) (n j : Nat) (hj : j < n)
    (hm : matchedRow ms j = none) : j ∈ unmatchedIdx ms n := by
  rw [unmatchedIdx]
  refine List.mem_filter.mpr ⟨List.mem_range.mpr hj, ?_⟩
  simp [hm]

/-- The unmatched indices are pairwise distinct. -/
theorem unmatchedIdx_nodup (ms : List (Nat × Nat)) (n : Nat) :
    (unmatchedIdx ms n).Nodup :=
  (List.nodup_range n).filter _

/-- The placement vector has one entry per input sample. -/
theorem depthPlacement_length (E N : List ℚ) (t : ℚ) :
    (depthPlacement E N t).length = N.length := by
  rw [depthPlacement, List.length_map, List.length_range]

/-- The combined support is the existing rows plus one appended row per
unmatched sample. -/
theorem depthCombined_length (E N : List ℚ) (t : ℚ) :
    (depthCombined E N t).length
      = E.length + (unmatchedIdx (depthMatches E N t) N.length).length := by
  rw [depthCombined, List.length_append, List.length_map]

/-- A column written through a placement has one entry per combined row. -/
theorem colFromPlacement_length (pl : List Nat) (vals : List (Option ℚ))
    (total : Nat) : (colFromPlacement pl vals total).length = total := by
  rw [colFromPlacement, List.length_map, List.length_range]

/-- The placement entry of a matched sample is its matched existing row. -/
theorem depthPlacement_matched (E N : List ℚ) (t : ℚ) (i j : Nat)
    (hj : j < N.length) (hm : matchedRow (depthMatches E N t) j = some i) :
    (depthPlacement E N t)[j]? = some i := by
  rw [depthPlacement, List.getElem?_map, List.getElem?_range hj]
  simp [hm]

/-- The placement entry of an unmatched sample is an appended row past the
end of the existing support, in arrival order. -/
theorem depthPlacement_unmatched (E N : List ℚ) (t : ℚ) (j : Nat)
    (hj : j < N.length) (hm : matchedRow (depthMatches E N t) j = none) :
    (depthPlacement E N t)[j]?
      = some (E.length
          + (unmatchedIdx (depthMatches E N t) N.length).indexOf j) := by
  rw [depthPlacement, List.getElem?_map, List.getElem?_range hj]
  simp [hm]

/-- The combined support carries the unmatched sample's coordinate at its
appended row. -/
theorem depthCombined_append_row (E N : List ℚ) (t : ℚ) (j : Nat)
    (hj : j < N.length) (hm : matchedRow (depthMatches E N t) j = none) :
    (depthCombined E N t)[E.length
        + (unmatchedIdx (depthMatches E N t) N.length).indexOf j]? = N[j]? := by
  have hmem : j ∈ unmatchedIdx (depthMatches E N t) N.length :=
    mem_unmatchedIdx _ _ j hj hm
  have hidx : (unmatchedIdx (depthMatches E N t) N.length).indexOf j
      < (unmatchedIdx (depthMatches E N t) N.length).length :=
    List.indexOf_lt_length.mpr hmem
  rw [depthCombined, List.getElem?_append_right (Nat.le_add_right _ _),
    Nat.add_sub_cancel_left, List.getElem?_map,
    List.getElem?_eq_getElem hidx, List.getElem_indexOf hidx]
  rw [Option.map_some', List.getD_eq_getElem?_getD,
    List.getElem?_eq_getElem hj]
  rfl

/-- In a placement without duplicate rows, looking a row up in the zipped
(placement, values) pairs finds exactly the sample placed there. -/
theorem find_zip_of_nodup (pl : List Nat) (vals : List (Option ℚ))
    (j r : Nat) (hlen : pl.length = vals.length) (hnd : pl.Nodup)
    (hj : pl[j]? = some r) :
    ∃ v, (pl.zip vals).find? (fun p => p.1 == r) = some (r, v) ∧
      vals[j]? = some v := by
  induction pl generalizing vals j with
  | nil => simp at hj
  | cons p0 pl2 ih =>
    cases vals with
    | nil => simp at hlen
    | cons v0 vals2 =>
      cases j with
      | zero =>
        obtain rfl : p0 = r := by simpa using hj
        refine ⟨v0, ?_, List.getElem?_cons_zero⟩
        rw [List.zip_cons_cons, List.find?_cons_of_pos _ (by simp)]
      | succ j2 =>
        have hj2 : pl2[j2]? = some r := by simpa using hj
        have hr : r ∈ pl2 := List.getElem?_mem hj2
        have hp0 : p0 ≠ r := fun he => (List.nodup_cons.mp hnd).1 (he ▸ hr)
        obtain ⟨v, hf, hv⟩ := ih vals2 j2 (by simpa using hlen)
          (List.nodup_cons.mp hnd).2 hj2
        refine ⟨v, ?_, by simpa using hv⟩
        rw [List.zip_cons_cons, List.find?_cons_of_neg _ (by simpa using hp0)]
        exact hf

/-- Reading the written column at a placed row returns the placed sample's
value. -/
theorem colFromPlacement_read (pl : List Nat) (vals : List (Option ℚ))
    (total j r : Nat) (hlen : pl.length = vals.length) (hnd : pl.Nodup)
    (hj : pl[j]? = some r) (hr : r < total) :
    (colFromPlacement pl vals total)[r]? = vals[j]? := by
  obtain ⟨v, hf, hv⟩ := find_zip_of_nodup pl vals j r hlen hnd hj
  rw [colFromPlacement, List.getElem?_map, List.getElem?_range hr]
  simp [hf, hv]

/-- No two samples are placed onto the same row. -/
theorem depthPlacement_nodup (E N : List ℚ) (t : ℚ) :
    (depthPlacement E N t).Nodup := by
  rw [depthPlacement]
  refine List.Nodup.map_on ?_ (List.nodup_range _)
  intro j1 hj1 j2 hj2 heq
  rw [List.mem_range] at hj1 hj2
  have hpw := depthMatchGo_pairwise t (E.length + N.length) E N
  cases hm1 : matchedRow (depthMatches E N t) j1 with
  | some i1 =>
    cases hm2 : matchedRow (depthMatches E N t) j2 with
    | some i2 =>
      simp only [hm1, hm2] at heq
      subst heq
      by_contra hne
      have hmem1 := mem_of_matchedRow _ _ _ hm1
      have hmem2 := mem_of_matchedRow _ _ _ hm2
      have hsym : Symmetric fun p q : Nat × Nat => p.1 ≠ q.1 :=
        fun p q h => Ne.symm h
      have hpw2 : (depthMatches E N t).Pairwise
          fun p q : Nat × Nat => p.1 ≠ q.1 :=
        hpw.imp fun hab => Nat.ne_of_lt hab.1
      have hdiff : ((i1, j1) : Nat × Nat) ≠ (i1, j2) := by
        intro h
        exact hne (congrArg Prod.snd h)
      exact (hpw2.forall hsym hmem1 hmem2 hdiff) rfl
    | none =>
      simp only [hm1, hm2] at heq
      have hmem1 := mem_of_matchedRow _ _ _ hm1
      have hi1 := (depthMatchGo_mem t (E.length + N.length) E N _ hmem1).1
      omega
  | none =>
    cases hm2 : matchedRow (depthMatches E N t) j2 with
    | some i2 =>
      simp only [hm1, hm2] at heq
      have hmem2 := mem_of_matchedRow _ _ _ hm2
      have hi2 := (depthMatchGo_mem t (E.length + N.length) E N _ hmem2).1
      omega
    | none =>
      simp only [hm1, hm2] at heq
      have hidx : (unmatchedIdx (depthMatches E N t) N.length).indexOf j1
          = (unmatchedIdx (depthMatches E N t) N.length).indexOf j2 := by
        omega
      have hmem1 := mem_unmatchedIdx (depthMatches E N t) N.length j1 hj1 hm1
      have hmem2 := mem_unmatchedIdx (depthMatches E N t) N.length j2 hj2 hm2
      have hlt1 := List.indexOf_lt_length.mpr hmem1
      have hlt2 := List.indexOf_lt_length.mpr hmem2
      have e1 := List.getElem_indexOf hlt1
      have e2 := List.getElem_indexOf hlt2
      rw [← e1, ← e2]
      congr 1

/-- Padding to the exact length is the identity. -/
theorem padValues_eq (vals : List (Option ℚ)) (L : Nat)
    (h : vals.length = L) : padValues vals L = vals := by
  rw [padValues, h, Nat.sub_self, List.replicate_zero, List.append_nil]

/-- A column previously aligned to the old support reads the sentinel at
every appended row. -/
theorem extendOldColumn_sentinel (old : List (Option ℚ)) (k r : Nat)
    (hr1 : old.length ≤ r) (hr2 : r < old.length + k) :
    (extendOldColumn old k)[r]? = some none := by
  rw [extendOldColumn, List.getElem?_append_right hr1, List.getElem?_replicate,
    if_pos (by omega)]

/-- A key that an association-list lookup misses binds no entry. -/
theorem alookup_eq_none_forall {α β : Type} [DecidableEq α]
    (l : List (α × β)) (k : α) (h : alookup l k = none) :
    ∀ p ∈ l, p.1 ≠ k := by
  induction l with
  | nil => intro p hp; cases hp
  | cons p0 rest ih =>
    intro p hp
    rw [alookup] at h
    by_cases h0 : p0.1 = k
    · rw [if_pos h0] at h
      cases h
    · rw [if_neg h0] at h
      rcases List.mem_cons.mp hp with rfl | hp2
      · exact h0
      · exact ih h p hp2

/-- C1: on an object with an existing depth support, `add_data` with sorted
depth samples and a positive tolerance succeeds and produces the merged
state: the combined support is the existing rows followed by one appended
row per unmatched sample; each matched pair is within tolerance and the
pairs are strictly increasing in both components (greedy left-to-right,
each row and sample consumed at most once); each matched sample's value is
written in place onto its existing row; each unmatched sample is appended at
the end, carrying its coordinate and value; and every column previously
aligned to the support is extended and reads the missing-value sentinel at
all appended rows. -/
theorem C1_depth_merge (o : DObject) (name : String) (E N : List ℚ)
    (vals : List (Option ℚ)) (t : ℚ)
    (_hE : E.Pairwise (· ≤ ·)) (_hN : N.Pairwise (· ≤ ·)) (ht : 0 < t)
    (hsup : o.depthSupport = some E)
    (hfresh : alookup o.columns name = none)
    (hlen : vals.length = N.length)
    (halign : ∀ pr ∈ o.columns, pr.2.kind = SupportKind.depth →
      pr.2.values.length = E.length) :
    ∃ o2, add_data o ⟨name, some N, none, vals⟩ t = Except.ok o2 ∧
      o2.depthSupport = some (depthCombined E N t) ∧
      (depthCombined E N t).length
        = E.length + (unmatchedIdx (depthMatches E N t) N.length).length ∧
      alookup o2.columns name
        = some ⟨SupportKind.depth, newDepthColumn E N t vals⟩ ∧
      (newDepthColumn E N t vals).length = (depthCombined E N t).length ∧
      (∀ p ∈ depthMatches E N t, p.1 < E.length ∧ p.2 < N.length ∧
        ∃ e x, E[p.1]? = some e ∧ N[p.2]? = some x ∧ |x - e| ≤ t) ∧
      ((depthMatches E N t).Pairwise fun p q => p.1 < q.1 ∧ p.2 < q.2) ∧
      (∀ i j, matchedRow (depthMatches E N t) j = some i → j < N.length →
        (depthPlacement E N t)[j]? = some i ∧ i < E.length ∧
        (newDepthColumn E N t vals)[i]? = vals[j]?) ∧
      (∀ j < N.length, matchedRow (depthMatches E N t) j = none →
        ∃ r, (depthPlacement E N t)[j]? = some r ∧ E.length ≤ r ∧
          r < (depthCombined E N t).length ∧
          (depthCombined E N t)[r]? = N[j]? ∧
          (newDepthColumn E N t vals)[r]? = vals[j]?) ∧
      (∀ pr ∈ o.columns, pr.2.kind = SupportKind.depth →
        (pr.1, (⟨SupportKind.depth, extendOldColumn pr.2.values
            ((depthCombined E N t).length - E.length)⟩ : Column))
          ∈ o2.columns ∧
        ∀ r, E.length ≤ r → r < (depthCombined E N t).length →
          (extendOldColumn pr.2.values
            ((depthCombined E N t).length - E.length))[r]? = some none) := by
  have ht2 : ¬ t ≤ 0 := not_le.mpr ht
  have hlen2 : ¬ N.length < vals.length := by omega
  have hpad : padValues vals N.length = vals := padValues_eq vals N.length hlen
  have hplen : (depthPlacement E N t).length = vals.length := by
    rw [depthPlacement_length, hlen]
  have hEcomb : E.length ≤ (depthCombined E N t).length := by
    rw [depthCombined_length]
    exact Nat.le_add_right _ _
  have hadd : add_data o ⟨name, some N, none, vals⟩ t
      = Except.ok { o with
          depthSupport := some (depthCombined E N t)
          columns := (o.columns.map fun pr =>
              if pr.2.kind = SupportKind.depth then
                (pr.1, ⟨SupportKind.depth, extendOldColumn pr.2.values
                  ((depthCombined E N t).length - E.length)⟩)
              else pr) ++
            [(name, ⟨SupportKind.depth, newDepthColumn E N t vals⟩)]
          groups := addToGroups o.groups (SupportCoords.depth N) name } := by
    simp [add_data, ht2, hfresh, addDepthCore, hsup, hlen2, hpad]
  refine ⟨_, hadd, rfl, depthCombined_length E N t, ?_, ?_, ?_, ?_, ?_, ?_, ?_⟩
  · refine alookup_append_fresh _ _ _ ?_
    intro p hp
    obtain ⟨q, hq, rfl⟩ := List.mem_map.mp hp
    have hqk := alookup_eq_none_forall o.columns name hfresh q hq
    split <;> exact hqk
  · rw [newDepthColumn, colFromPlacement_length]
  · exact depthMatchGo_mem t (E.length + N.length) E N
  · exact depthMatchGo_pairwise t (E.length + N.length) E N
  · intro i j hm hj
    have hmem := mem_of_matchedRow _ _ _ hm
    have hiE := (depthMatchGo_mem t (E.length + N.length) E N _ hmem).1
    have hpl := depthPlacement_matched E N t i j hj hm
    refine ⟨hpl, hiE, ?_⟩
    rw [newDepthColumn]
    exact colFromPlacement_read _ _ _ j i hplen
      (depthPlacement_nodup E N t) hpl (lt_of_lt_of_le hiE hEcomb)
  · intro j hj hm
    have hmem : j ∈ unmatchedIdx (depthMatches E N t) N.length :=
      mem_unmatchedIdx _ _ j hj hm
    have hidx := List.indexOf_lt_length.mpr hmem
    have hpl := depthPlacement_unmatched E N t j hj hm
    have hrlt : E.length
        + (unmatchedIdx (depthMatches E N t) N.length).indexOf j
        < (depthCombined E N t).length := by
      rw [depthCombined_length]
      omega
    refine ⟨_, hpl, Nat.le_add_right _ _, hrlt,
      depthCombined_append_row E N t j hj hm, ?_⟩
    rw [newDepthColumn]
    exact colFromPlacement_read _ _ _ j _ hplen
      (depthPlacement_nodup E N t) hpl hrlt
  · intro pr hpr hkind
    constructor
    · refine List.mem_append_left _ ?_
      refine List.mem_map.mpr ⟨pr, hpr, ?_⟩
      rw [if_pos hkind]
    · intro r hr1 hr2
      refine extendOldColumn_sentinel _ _ _ ?_ ?_
      · rw [halign pr hpr hkind]
        exact hr1
      · rw [halign pr hpr hkind]
        omega

/-- C1 witness: the drillhole-test scenario — a 50-sample log at depths
`0.01 .. 49.01` merged with tolerance `0.5` onto a well whose support is
`0 .. 49` succeeds, every merge fact of the claim holds, and concretely the
combined support has 50 rows with both columns of length 50. -/
theorem C1_depth_merge_witness :
    (∃ o2, add_data wellAfterFirstLog
        ⟨"log_wt_tolerance", some depthsShift50, none, vals50b⟩ (1 / 2)
        = Except.ok o2 ∧
      o2.depthSupport = some (depthCombined depths50 depthsShift50 (1 / 2)) ∧
      (depthCombined depths50 depthsShift50 (1 / 2)).length
        = depths50.length + (unmatchedIdx
            (depthMatches depths50 depthsShift50 (1 / 2))
            depthsShift50.length).length ∧
      alookup o2.columns "log_wt_tolerance"
        = some ⟨SupportKind.depth,
            newDepthColumn depths50 depthsShift50 (1 / 2) vals50b⟩ ∧
      (newDepthColumn depths50 depthsShift50 (1 / 2) vals50b).length
        = (depthCombined depths50 depthsShift50 (1 / 2)).length ∧
      (∀ p ∈ depthMatches depths50 depthsShift50 (1 / 2),
        p.1 < depths50.length ∧ p.2 < depthsShift50.length ∧
        ∃ e x, depths50[p.1]? = some e ∧ depthsShift50[p.2]? = some x ∧
          |x - e| ≤ 1 / 2) ∧
      ((depthMatches depths50 depthsShift50 (1 / 2)).Pairwise
        fun p q => p.1 < q.1 ∧ p.2 < q.2) ∧
      (∀ i j, matchedRow (depthMatches depths50 depthsShift50 (1 / 2)) j
          = some i → j < depthsShift50.length →
        (depthPlacement depths50 depthsShift50 (1 / 2))[j]? = some i ∧
        i < depths50.length ∧
        (newDepthColumn depths50 depthsShift50 (1 / 2) vals50b)[i]?
          = vals50b[j]?) ∧
      (∀ j < depthsShift50.length,
        matchedRow (depthMatches depths50 depthsShift50 (1 / 2)) j = none →
        ∃ r, (depthPlacement depths50 depthsShift50 (1 / 2))[j]? = some r ∧
          depths50.length ≤ r ∧
          r < (depthCombined depths50 depthsShift50 (1 / 2)).length ∧
          (depthCombined depths50 depthsShift50 (1 / 2))[r]?
            = depthsShift50[j]? ∧
          (newDepthColumn depths50 depthsShift50 (1 / 2) vals50b)[r]?
            = vals50b[j]?) ∧
      (∀ pr ∈ wellAfterFirstLog.columns, pr.2.kind = SupportKind.depth →
        (pr.1, (⟨SupportKind.depth, extendOldColumn pr.2.values
            ((depthCombined depths50 depthsShift50 (1 / 2)).length
              - depths50.length)⟩ : Column)) ∈ o2.columns ∧
        ∀ r, depths50.length ≤ r →
          r < (depthCombined depths50 depthsShift50 (1 / 2)).length →
          (extendOldColumn pr.2.values
            ((depthCombined depths50 depthsShift50 (1 / 2)).length
              - depths50.length))[r]? = some none)) ∧
    (depthCombined depths50 depthsShift50 (1 / 2)).length = 50 ∧
    (newDepthColumn depths50 depthsShift50 (1 / 2) vals50b).length = 50 ∧
    (extendOldColumn vals50a
      ((depthCombined depths50 depthsShift50 (1 / 2)).length
        - depths50.length)).length = 50 :=
  ⟨C1_depth_merge wellAfterFirstLog "log_wt_tolerance" depths50 depthsShift50
      vals50b (1 / 2) (by decide) (by decide) (by decide) rfl (by decide)
      (by decide) (by decide),
   by decide, by decide, by decide⟩
